import Mathlib

/-!
Shallow embedding of the workflow execution engine of the
`deepface-workflow-editor` repository (`src/backend/core/workflow_engine.py`,
`src/backend/core/error_handler.py`, `src/backend/nodes/base_node.py`,
`src/backend/schemas/schemas.py`), together with theorems settling the
spec claims about validation, layering, scheduling, stop/resume and
dispatch.

Python dicts keyed by strings are modelled as association lists, Python
sets of strings as lists without duplicates (insertion order), and the
externally supplied node bodies (`ExecutableNode.execute`) as an oracle
function from node id to an outcome.  Recursive Python functions whose
termination depends on a mutable visited set are modelled with an explicit
fuel parameter large enough that the fuel never runs out on the arguments
the engine supplies (lemmas below discharge this).
-/

/-- `NodeStatus` enum of `schemas/schemas.py`. -/
inductive NodeStatus where
  | idle
  | running
  | completed
  | error
  | paused
deriving DecidableEq, Repr

/-- `ExecutionStatus` enum of `schemas/schemas.py`. -/
inductive ExecutionStatus where
  | idle
  | running
  | completed
  | error
  | paused
deriving DecidableEq, Repr

/-- `NodeType` enum of `schemas/schemas.py`; a `WorkflowNode.type` is always
one of these (pydantic validates incoming data against the enum). -/
inductive NodeType where
  | video_input
  | image_input
  | extract_faces
  | train_model
  | merge_faces
  | video_output
  | image_output
  | xseg_editor
  | denoise
  | enhance_faces
  | utility
deriving DecidableEq, Repr

/-- The string value of a `NodeType` member (it is a `str` enum, so
`node.type == "video_input"` in Python compares this value). -/
def NodeType.value : NodeType → String
  | .video_input => "video_input"
  | .image_input => "image_input"
  | .extract_faces => "extract_faces"
  | .train_model => "train_model"
  | .merge_faces => "merge_faces"
  | .video_output => "video_output"
  | .image_output => "image_output"
  | .xseg_editor => "xseg_editor"
  | .denoise => "denoise"
  | .enhance_faces => "enhance_faces"
  | .utility => "utility"

/-- `ErrorSeverity` enum of `core/error_handler.py`. -/
inductive ErrorSeverity where
  | low
  | medium
  | high
  | critical
deriving DecidableEq, Repr

/-- `ErrorCategory` enum of `core/error_handler.py`. -/
inductive ErrorCategory where
  | validation
  | execution
  | resource
  | network
  | permission
  | configuration
  | dependency
  | unknown
deriving DecidableEq, Repr

/-- `WorkflowEdge` of `schemas/schemas.py`: source/target node ids plus the
port handles (the engine only reads `source` and `target`). -/
structure WorkflowEdge where
  id : String
  source : String
  target : String
  sourceHandle : String
  targetHandle : String
deriving DecidableEq, Repr

/-- The static fields of `WorkflowNode` (`schemas/schemas.py`) that the
engine reads: `id`, `type` and the `inputs` dict (port id → source
reference).  The mutable run-time fields (`status`, `progress`, `message`)
are tracked per-execution in `EngineState` below, mirroring the engine
mutating the node objects during a run. -/
structure WorkflowNode where
  id : String
  type : NodeType
  inputs : List (String × String)
deriving DecidableEq, Repr

/-- `Workflow` of `schemas/schemas.py`: the fields the engine reads. -/
structure Workflow where
  id : String
  nodes : List WorkflowNode
  edges : List WorkflowEdge
deriving DecidableEq, Repr

/-- The list of node ids of a workflow. -/
def Workflow.nodeIds (w : Workflow) : List String :=
  w.nodes.map WorkflowNode.id

/-- The edge relation of a workflow: `edgeRel w a b` holds when some edge
of `w` goes from id `a` to id `b`. -/
def edgeRel (w : Workflow) (a b : String) : Prop :=
  ∃ e ∈ w.edges, e.source = a ∧ e.target = b

/-- `a` reaches `b` through zero or more edges of `w`. -/
def reach (w : Workflow) (a b : String) : Prop :=
  Relation.ReflTransGen (edgeRel w) a b

/-- A directed cycle of the edge relation passes through id `u`. -/
def cycleAt (w : Workflow) (u : String) : Prop :=
  Relation.TransGen (edgeRel w) u u

/-- No directed cycle of the edge relation is reachable from `v`. -/
def safeFrom (w : Workflow) (v : String) : Prop :=
  ¬ ∃ u, reach w v u ∧ cycleAt w u

/-- All ids a depth-first traversal of `w` can ever touch: node ids and
both endpoints of every edge. -/
def allIds (w : Workflow) : List String :=
  w.nodeIds ++ w.edges.map WorkflowEdge.source ++ w.edges.map WorkflowEdge.target

/-- The `for edge in workflow.edges` loop body of the recursive `dfs` of
`WorkflowEngine._has_cycles`, abstracted over the recursive call `visit`:
skip edges not leaving `u`; report a cycle when the target is on the
recursion stack; recurse into unvisited targets, threading the visited
set. -/
def dfsScanWith (w : Workflow)
    (visit : String → List String → List String → Bool × List String) :
    List WorkflowEdge → String → List String → List String → Bool × List String
  | [], _, visited, _ => (false, visited)
  | e :: rest, u, visited, stack =>
    if e.source = u then
      if e.target ∈ stack then (true, visited)
      else if e.target ∈ visited then dfsScanWith w visit rest u visited stack
      else
        match visit e.target visited stack with
        | (true, v2) => (true, v2)
        | (false, v2) => dfsScanWith w visit rest u v2 stack
    else dfsScanWith w visit rest u visited stack

/-- The recursive `dfs` of `WorkflowEngine._has_cycles`: visit `u`, push it
on the recursion stack, then scan the workflow's edge list for out-edges of
`u`.  Returns the cycle flag together with the updated `visited` set
(Python mutates a shared set).  `fuel` bounds the recursion depth; the
engine always supplies enough fuel (each recursive call visits a fresh id,
so the depth is at most the number of distinct ids — discharged by the
lemmas below). -/
def dfsVisit (w : Workflow) : Nat → String → List String → List String → Bool × List String
  | 0, _, visited, _ => (true, visited)
  | fuel + 1, u, visited, stack =>
    dfsScanWith w (fun t v s => dfsVisit w fuel t v s) w.edges u (u :: visited) (u :: stack)

/-- The edge scan at a given remaining fuel (the loop body as entered after
`dfs` pushes `u`). -/
def dfsScan (w : Workflow) (fuel : Nat) :
    List WorkflowEdge → String → List String → List String → Bool × List String :=
  dfsScanWith w (fun t v s => dfsVisit w fuel t v s)

/-- The fuel `_has_cycles` hands to each `dfs` call: one unit per distinct
id plus one (a strict upper bound on the recursion depth). -/
def dfsFuel (w : Workflow) : Nat :=
  (allIds w).length + 1

/-- The `for node in workflow.nodes` loop of `_has_cycles`: start a fresh
`dfs` (empty recursion stack) at every not-yet-visited node id. -/
def hasCyclesGo (w : Workflow) : List WorkflowNode → List String → Bool
  | [], _ => false
  | n :: rest, visited =>
    if n.id ∈ visited then hasCyclesGo w rest visited
    else
      match dfsVisit w (dfsFuel w) n.id visited [] with
      | (true, _) => true
      | (false, v2) => hasCyclesGo w rest v2

/-- `WorkflowEngine._has_cycles`. -/
def hasCycles (w : Workflow) : Bool :=
  hasCyclesGo w w.nodes []

/-- Result dict of `_validate_workflow`: `{"valid": bool, "error"?: str}`. -/
structure ValidationResult where
  valid : Bool
  error : Option String
deriving DecidableEq, Repr

/-- The required-input loop of `_validate_workflow`: for every node it
iterates over the keys of `node.inputs` and tests `input_port not in
node.inputs` (membership in the very dict being iterated), returning the
first offending node/port pair.  Kept exactly as the source has it. -/
def findMissingRequiredInput (w : Workflow) : Option (String × String) :=
  w.nodes.findSome? fun n =>
    (n.inputs.map Prod.fst).findSome? fun inputPort =>
      if inputPort ∈ n.inputs.map Prod.fst then none else some (n.id, inputPort)

/-- `WorkflowEngine._validate_workflow`: cycle check first, then the
required-input loop.  (The Python body is wrapped in a `try/except`; no
statement in it can raise, so the handler is dead and not modelled.) -/
def validateWorkflow (w : Workflow) : ValidationResult :=
  if hasCycles w then
    { valid := false, error := some "Workflow contains cycles" }
  else
    match findMissingRequiredInput w with
    | some (nid, port) =>
      { valid := false, error := some ("Node " ++ nid ++ " missing required input " ++ port) }
    | none => { valid := true, error := none }

/-- Dropping at least one element strictly shrinks a filter.  Used for the
termination of the layering loop (each iteration schedules a non-empty
layer and removes it from the remaining set). -/
def length_filter_lt_of_mem_not_kept {α : Type} {l : List α} {p : α → Bool}
    {x : α} (hx : x ∈ l) (hpx : p x = false) : (l.filter p).length < l.length := by
  induction l with
  | nil => cases hx
  | cons a t ih =>
    rcases List.mem_cons.mp hx with h | h
    · subst h
      simp only [List.filter_cons, hpx, List.length_cons]
      exact Nat.lt_succ_of_le (List.length_filter_le p t)
    · simp only [List.filter_cons, List.length_cons]
      cases hpa : p a
      · exact Nat.lt_succ_of_lt (ih h)
      · simpa using Nat.succ_lt_succ (ih h)

/-- Python renders an uncaught `KeyError(k)` as the quoted key; the exact
text is irrelevant to every claim, only which id was missing. -/
def keyErrorText (k : String) : String := "KeyError: " ++ k

/-- Lookup in an association list modelling a `dict` of string sets
(`dependencies` / `graph` in the engine); total because the engine only
looks up keys it has inserted. -/
def lookupList (m : List (String × List String)) (k : String) : List String :=
  match m.find? (fun p => p.1 = k) with
  | some p => p.2
  | none => []

/-- `set.add` on the value stored under `k` (keys are fixed up front, as in
`dependencies = {node.id: set() for node in workflow.nodes}`). -/
def assocAdd (m : List (String × List String)) (k v : String) :
    List (String × List String) :=
  m.map fun p => if p.1 = k then (p.1, if v ∈ p.2 then p.2 else p.2 ++ [v]) else p

/-- The dependency-graph construction of `_execute_workflow_parallel`:
`dependencies[edge.target].add(edge.source)` then
`dependents[edge.source].add(edge.target)`; an edge endpoint that is not a
node id raises `KeyError` (target first, matching statement order).  Only
the `dependencies` map is ever read afterwards, so only it is returned. -/
def buildDependenciesGo (nodeKeys : List String) :
    List WorkflowEdge → List (String × List String) →
    Except String (List (String × List String))
  | [], deps => .ok deps
  | e :: rest, deps =>
    if e.target ∈ nodeKeys then
      if e.source ∈ nodeKeys then
        buildDependenciesGo nodeKeys rest (assocAdd deps e.target e.source)
      else .error (keyErrorText e.source)
    else .error (keyErrorText e.target)

/-- `dependencies` of `_execute_workflow_parallel`, keyed by node id. -/
def buildDependencies (w : Workflow) : Except String (List (String × List String)) :=
  buildDependenciesGo w.nodeIds w.edges (w.nodes.map fun n => (n.id, []))

/-- The layer condition of `_execute_workflow_parallel`:
`not dependencies[node_id] or dependencies[node_id].issubset(nodes_completed)`. -/
def layerReady (deps : List (String × List String)) (completed : List String)
    (n : String) : Bool :=
  (lookupList deps n).isEmpty || (lookupList deps n).all (fun d => d ∈ completed)

/-- The `ValueError` message raised when an iteration yields an empty layer. -/
def circularDependencyText : String :=
  "Circular dependency detected or unable to resolve dependencies"

/-- The `while remaining_nodes:` layering loop of
`_execute_workflow_parallel`.  Note that, exactly as in the source, the
readiness test compares dependency sets against the `nodes_completed` set
frozen at entry — the set is not extended as layers are formed. -/
def computeLayersGo (deps : List (String × List String)) (completed : List String)
    (remaining : List String) : Except String (List (List String)) :=
  if remaining = [] then .ok []
  else
    if hc : remaining.filter (layerReady deps completed) = [] then
      .error circularDependencyText
    else
      match computeLayersGo deps completed
          (remaining.filter fun n => !layerReady deps completed n) with
      | .error e => .error e
      | .ok ls => .ok (remaining.filter (layerReady deps completed) :: ls)
termination_by remaining.length
decreasing_by
  rcases List.exists_mem_of_ne_nil _ hc with ⟨x, hx⟩
  have hxr : x ∈ remaining := (List.mem_filter.mp hx).1
  have hpx : layerReady deps completed x = true := (List.mem_filter.mp hx).2
  exact length_filter_lt_of_mem_not_kept hxr (by simp [hpx])

/-- The layering phase of `_execute_workflow_parallel`: remaining nodes
start as `set(node.id for node in workflow.nodes)`. -/
def computeLayers (w : Workflow) (completed : List String) :
    Except String (List (List String)) := do
  let deps ← buildDependencies w
  computeLayersGo deps completed w.nodeIds.dedup

/-- Diagnostic record created by `ErrorHandler.handle_error`
(`core/error_handler.py`): the fields the claims mention. -/
structure ErrorRecord where
  severity : ErrorSeverity
  category : ErrorCategory
  message : String
  nodeId : Option String
  recoverable : Bool
deriving DecidableEq, Repr

/-- `handle_execution_error` of `core/error_handler.py`: severity `high`,
category `execution`, recoverable. -/
def executionErrorRecord (msg : String) (nodeId : String) : ErrorRecord :=
  { severity := .high, category := .execution, message := msg,
    nodeId := some nodeId, recoverable := true }

/-- The concrete node classes `_create_node_instance` can return. -/
inductive NodeInstanceKind where
  | videoInput
  | extract
  | train
  | merge
  | videoOutput
  | advancedFaceEditor
  | imageResize
  | faceFilter
  | batchRename
deriving DecidableEq, Repr

/-- The fault raised when the `else` branch of `_create_node_instance`
evaluates `BaseNode(node)`: `BaseNode` is an ABC whose `execute` is
abstract, so CPython raises `TypeError` at instantiation.  (The exact
CPython wording varies across versions; no theorem depends on this text.) -/
def abstractBaseNodeText : String :=
  "cannot instantiate abstract class BaseNode with abstract method execute"

/-- `WorkflowEngine._create_node_instance`: the `if/elif` chain over the
node's type tag (a `str` enum, compared against literal strings).  The
branches for `"image_resize"`, `"face_filter"` and `"batch_rename"` are in
the source but unreachable, since no `NodeType` member carries those
values.  An unmatched type falls through to `BaseNode(node)`, which
raises. -/
def createNodeInstance (node : WorkflowNode) : Except String NodeInstanceKind :=
  let t := node.type.value
  if t = "video_input" then .ok .videoInput
  else if t = "extract_faces" then .ok .extract
  else if t = "train_model" then .ok .train
  else if t = "merge_faces" then .ok .merge
  else if t = "video_output" then .ok .videoOutput
  else if t = "xseg_editor" then .ok .advancedFaceEditor
  else if t = "image_resize" then .ok .imageResize
  else if t = "face_filter" then .ok .faceFilter
  else if t = "batch_rename" then .ok .batchRename
  else .error abstractBaseNodeText

/-- The outcome of an `ExecutableNode.execute` call, supplied by the
external node implementation: an explicit success dict, an explicit
failure dict, or a raised fault. -/
inductive NodeOutcome where
  | success
  | failure (msg : String)
  | raised (msg : String)

/-- The result dict `_execute_node_parallel` hands back to the gather loop:
`{"success": bool, "error"?: str}`. -/
structure ExecResultDict where
  success : Bool
  error : Option String
deriving DecidableEq, Repr

/-- `WorkflowEngine._execute_node_parallel`: dispatch the node, run its
`execute`, and convert any raised fault (from dispatch or from `execute`)
into a `{"success": False}` dict plus an `ErrorRecord` via
`handle_execution_error` (with `halt_workflow=False`).  It therefore never
raises itself. -/
def executeNodeParallel (node : WorkflowNode) (f : String → NodeOutcome) :
    ExecResultDict × List ErrorRecord :=
  match createNodeInstance node with
  | .error msg =>
    ({ success := false, error := some msg }, [executionErrorRecord msg node.id])
  | .ok _ =>
    match f node.id with
    | .success => ({ success := true, error := none }, [])
    | .failure m => ({ success := false, error := some m }, [])
    | .raised m => ({ success := false, error := some m }, [executionErrorRecord m node.id])

/-- The per-execution mutable state: the `execution_context` dict of
`execute_workflow` together with the run-time fields the engine mutates on
the workflow's node objects (`nodeStatusMap`), the set of node ids handed
to `_execute_node_parallel` (`dispatched`) and the error log. -/
structure EngineState where
  workflowId : String
  workflow : Workflow
  status : ExecutionStatus
  currentNode : Option String
  progress : Rat
  nodesCompleted : List String
  nodesFailed : List String
  nodeStatusMap : List (String × NodeStatus)
  dispatched : List String
  errorLog : List ErrorRecord
deriving DecidableEq, Repr

/-- The fresh `execution_context` built by `execute_workflow` (status
`running`, empty completed/failed sets); node statuses start at the schema
default `idle`. -/
def initState (workflowId : String) (w : Workflow) : EngineState :=
  { workflowId := workflowId, workflow := w, status := .running,
    currentNode := none, progress := 0, nodesCompleted := [], nodesFailed := [],
    nodeStatusMap := w.nodes.map fun n => (n.id, NodeStatus.idle),
    dispatched := [], errorLog := [] }

/-- Mutate `node.status` for the node object with the given id. -/
def setNodeStatus (m : List (String × NodeStatus)) (k : String) (v : NodeStatus) :
    List (String × NodeStatus) :=
  m.map fun p => if p.1 = k then (p.1, v) else p

/-- `set.add` for the `nodes_completed` / `nodes_failed` sets. -/
def addId (s : List String) (v : String) : List String :=
  if v ∈ s then s else s ++ [v]

/-- One iteration of the result-processing loop of
`_execute_workflow_parallel`: a `{"success": True}` dict marks the node
completed, anything else (explicit failure dict, missing key, or the
`isinstance(result, Exception)` branch — which cannot fire because
`_execute_node_parallel` catches everything) marks it failed. -/
def processOutcome (st : EngineState) (nodeId : String) (res : ExecResultDict) :
    EngineState :=
  if res.success then
    { st with nodeStatusMap := setNodeStatus st.nodeStatusMap nodeId .completed,
              nodesCompleted := addId st.nodesCompleted nodeId }
  else
    { st with nodeStatusMap := setNodeStatus st.nodeStatusMap nodeId .error,
              nodesFailed := addId st.nodesFailed nodeId }

/-- One layer of `_execute_workflow_parallel`: create one task per layer id
that resolves to a node of the workflow (`next(...)`), run them all
(`asyncio.gather`), then process result `i` against `layer[i]` — the
source pairs results positionally with the layer list. -/
def runLayer (w : Workflow) (f : String → NodeOutcome) (layer : List String)
    (st : EngineState) : EngineState :=
  let found := layer.filterMap fun nid => w.nodes.find? fun n => n.id = nid
  let results := found.map fun n => executeNodeParallel n f
  let st1 := { st with
    dispatched := st.dispatched ++ found.map WorkflowNode.id,
    errorLog := st.errorLog ++ (results.map Prod.snd).flatten }
  (layer.zip (results.map Prod.fst)).foldl (fun s p => processOutcome s p.1 p.2) st1

/-- The aggregate-progress update run after each layer:
`(len(nodes_completed) / total_nodes) * 100`. -/
def updateProgress (total : Nat) (st : EngineState) : EngineState :=
  { st with progress := ((st.nodesCompleted.length : Rat) / (total : Rat)) * 100 }

/-- The `for layer in layers:` loop of `_execute_workflow_parallel`: break
before dispatching a layer as soon as `nodes_failed` is non-empty; the
execution status is never consulted here. -/
def runLayers (w : Workflow) (f : String → NodeOutcome) (total : Nat) :
    List (List String) → EngineState → EngineState
  | [], st => st
  | layer :: rest, st =>
    if st.nodesFailed ≠ [] then st
    else runLayers w f total rest (updateProgress total (runLayer w f layer st))

/-- `WorkflowEngine._execute_workflow_parallel`: build the dependency map
(`KeyError` on a dangling edge), compute the layers (`ValueError` when a
layer comes up empty), then drive the layer loop.  Both faults occur
before any node is dispatched. -/
def executeWorkflowParallel (w : Workflow) (f : String → NodeOutcome)
    (st : EngineState) : Except String EngineState := do
  let deps ← buildDependencies w
  let layers ← computeLayersGo deps st.nodesCompleted w.nodeIds.dedup
  .ok (runLayers w f w.nodes.length layers st)

/-- The result dict `execute_workflow` returns:
`{"success": bool, "error"?/ "message"?: str}`. -/
structure RunResult where
  success : Bool
  error : Option String
  message : Option String
deriving DecidableEq, Repr

/-- The finalization of `execute_workflow`: a non-empty `nodes_failed` set
turns the execution status to `error` and reports
`Execution failed at node: <first failed id>`; otherwise the status becomes
`completed`. -/
def finalizeExecution (st : EngineState) : RunResult × EngineState :=
  if st.nodesFailed ≠ [] then
    ({ success := false,
       error := some ("Execution failed at node: " ++ st.nodesFailed.headI),
       message := none },
     { st with status := .error })
  else
    ({ success := true, error := none, message := some "Workflow completed successfully" },
     { st with status := .completed })

/-- The body of `execute_workflow` once a workflow object is in hand
(everything after the `_load_workflow` test): validate, build the fresh
execution context, run the parallel phase — whose `KeyError`/`ValueError`
faults the surrounding `try/except` converts into a
`{"success": False, "error": str(e)}` result, before any node was
dispatched — then finalize. -/
def executeLoadedWorkflow (workflowId : String) (w : Workflow)
    (f : String → NodeOutcome) : RunResult × EngineState :=
  let st0 := initState workflowId w
  let v := validateWorkflow w
  if v.valid = false then
    ({ success := false,
       error := some ("Workflow validation failed: " ++ v.error.getD ""),
       message := none }, st0)
  else
    match executeWorkflowParallel w f st0 with
    | .error e => ({ success := false, error := some e, message := none }, st0)
    | .ok st => finalizeExecution st

/-- `WorkflowEngine._load_workflow`: the source unconditionally returns
`None` ("For now, return None to indicate workflow not found"). -/
def loadWorkflow (_workflowId : String) : Option Workflow :=
  none

/-- `del self.running_executions[execution_id]` guarded by a membership
test (the `finally` clause of `execute_workflow`). -/
def eraseExecution (table : List (String × EngineState)) (k : String) :
    List (String × EngineState) :=
  table.filter fun p => p.1 ≠ k

/-- What a call to the public entry point `execute_workflow(workflow_id,
execution_id)` produces: its return dict, the run table after the
`finally` clause, the node ids dispatched during the call, and whether
`_validate_workflow` was ever invoked. -/
structure EntryOutcome where
  result : RunResult
  table : List (String × EngineState)
  dispatched : List String
  validated : Bool
deriving DecidableEq, Repr

/-- `WorkflowEngine.execute_workflow`: load the workflow — `_load_workflow`
always yields `None`, so the `not workflow` branch returns
`{"success": False, "error": "Workflow not found"}` without validating,
layering or dispatching anything; the `finally` clause still evicts the
execution id from the run table.  The loaded branch is modelled for
completeness but is dead code. -/
def executeWorkflowEntry (workflowId executionId : String)
    (table : List (String × EngineState)) (f : String → NodeOutcome) :
    EntryOutcome :=
  match loadWorkflow workflowId with
  | none =>
    { result := { success := false, error := some "Workflow not found", message := none },
      table := eraseExecution table executionId,
      dispatched := [],
      validated := false }
  | some w =>
    let (res, st) := executeLoadedWorkflow workflowId w f
    { result := res,
      table := eraseExecution table executionId,
      dispatched := st.dispatched,
      validated := true }

/-- `WorkflowEngine.stop_execution`: when the execution id is in the run
table, set its status to `paused`.  (The follow-up node notification is
guarded by `current_node`, which no code path ever sets, so it never
fires.)  Nothing else is touched: in particular no flag the layer loop
reads. -/
def stopExecution (table : List (String × EngineState)) (executionId : String) :
    List (String × EngineState) :=
  table.map fun p =>
    if p.1 = executionId then (p.1, { p.2 with status := ExecutionStatus.paused }) else p

/-- Integer lookup in the `in_degree` dict (keys are fixed to the node ids
before the loop runs). -/
def lookupInt (m : List (String × Int)) (k : String) : Int :=
  match m.find? (fun p => p.1 = k) with
  | some p => p.2
  | none => 0

/-- `in_degree[k] = v`. -/
def setInt (m : List (String × Int)) (k : String) (v : Int) : List (String × Int) :=
  m.map fun p => if p.1 = k then (p.1, v) else p

/-- `graph[k].append(v)` (adjacency lists keep duplicates). -/
def adjAppend (m : List (String × List String)) (k v : String) :
    List (String × List String) :=
  m.map fun p => if p.1 = k then (p.1, p.2 ++ [v]) else p

/-- The edge pass of `_get_execution_order`:
`graph[edge.source].append(edge.target)` then `in_degree[edge.target] += 1`,
raising `KeyError` (source first) on a dangling endpoint. -/
def kahnBuild (nodeKeys : List String) :
    List WorkflowEdge → List (String × List String) → List (String × Int) →
    Except String (List (String × List String) × List (String × Int))
  | [], g, d => .ok (g, d)
  | e :: rest, g, d =>
    if e.source ∈ nodeKeys then
      if e.target ∈ nodeKeys then
        kahnBuild nodeKeys rest (adjAppend g e.source e.target)
          (setInt d e.target (lookupInt d e.target + 1))
      else .error (keyErrorText e.target)
    else .error (keyErrorText e.source)

/-- Decrement the in-degree of one neighbour of the popped node and enqueue
it when the degree reaches exactly zero. -/
def kahnVisitNeighbor (acc : List (String × Int) × List String) (nb : String) :
    List (String × Int) × List String :=
  let d := lookupInt acc.1 nb - 1
  let deg := setInt acc.1 nb d
  if d = 0 then (deg, acc.2 ++ [nb]) else (deg, acc.2)

/-- The `while queue:` loop of `_get_execution_order` (Kahn's algorithm,
FIFO queue).  Each node id enters the queue at most once (its in-degree
reaches zero at most once, and the initially zero-degree ids are never
decremented), so the number of pops is at most the number of node ids;
`fuel` is set above that bound. -/
def kahnLoop (graph : List (String × List String)) :
    Nat → List (String × Int) → List String → List String → List String
  | 0, _, _, result => result
  | fuel + 1, inDeg, queue, result =>
    match queue with
    | [] => result
    | current :: qrest =>
      let acc := (lookupList graph current).foldl kahnVisitNeighbor (inDeg, qrest)
      kahnLoop graph fuel acc.1 acc.2 (result ++ [current])

/-- `WorkflowEngine._get_execution_order`: topological order by Kahn's
algorithm; dicts are keyed by node id in node-list order. -/
def executionOrder (w : Workflow) : Except String (List String) := do
  let g0 : List (String × List String) := w.nodes.map fun n => (n.id, [])
  let d0 : List (String × Int) := w.nodes.map fun n => (n.id, 0)
  let (g, d) ← kahnBuild w.nodeIds w.edges g0 d0
  let queue := (d.filter fun p => p.2 = 0).map Prod.fst
  .ok (kahnLoop g (w.nodes.length + 1) d queue [])

/-- `WorkflowEngine.resume_execution`: unknown executions are rejected; an
execution found in the table is flipped back to `running`, the topological
order is computed, the first node outside `nodes_completed ∪ nodes_failed`
is located — and then the whole of `execute_workflow` is re-entered from
scratch (the source comments call this a simplified implementation).  A
fault from `_get_execution_order` would propagate to the caller
(`Except.error`). -/
def resumeExecution (table : List (String × EngineState)) (executionId : String)
    (f : String → NodeOutcome) :
    Except String (RunResult × List (String × EngineState) × List String) :=
  match (table.find? fun p => p.1 = executionId).map Prod.snd with
  | none => .ok ({ success := false, error := some "Execution not found", message := none },
                 table, [])
  | some ctx =>
    let ctx2 := { ctx with status := ExecutionStatus.running }
    let table2 := table.map fun p => if p.1 = executionId then (p.1, ctx2) else p
    match executionOrder ctx2.workflow with
    | .error e => .error e
    | .ok order =>
      match order.find? (fun nid =>
          !(ctx2.nodesCompleted.contains nid) && !(ctx2.nodesFailed.contains nid)) with
      | none => .ok ({ success := true, error := none, message := some "No more nodes to execute" },
                     table2, [])
      | some _ =>
        let eo := executeWorkflowEntry ctx2.workflowId executionId table2 f
        .ok (eo.result, eo.table, eo.dispatched)

/-- Result of running node `nid` of workflow `w` through
`_execute_node_parallel` (the dict the gather loop will see for it). -/
def nodeRunResult (w : Workflow) (f : String → NodeOutcome) (nid : String) :
    ExecResultDict :=
  match w.nodes.find? fun n => n.id = nid with
  | some n => (executeNodeParallel n f).1
  | none => { success := false, error := none }

/-- The run-time status recorded for node `nid`. -/
def statusOf (st : EngineState) (nid : String) : Option NodeStatus :=
  (st.nodeStatusMap.find? fun p => p.1 = nid).map Prod.snd

/-- The type tags actually matched by `_create_node_instance`'s
`if/elif` chain. -/
def recognizedTypeValues : List String :=
  ["video_input", "extract_faces", "train_model", "merge_faces", "video_output",
   "xseg_editor", "image_resize", "face_filter", "batch_rename"]

/-- Whether a node type reaches one of the concrete constructors of
`_create_node_instance` (rather than the abstract `BaseNode` fallback). -/
def recognizedNodeType (t : NodeType) : Bool :=
  t.value ∈ recognizedTypeValues

/-- The distinct ids the depth-first traversal ranges over, as a finite set
(used only to measure remaining fuel in the lemmas below). -/
def idsF (w : Workflow) : Finset String :=
  (allIds w).toFinset

/-- Number of traversable ids not yet visited: the bound on the remaining
`dfs` recursion depth. -/
def cardRem (w : Workflow) (visited : List String) : Nat :=
  (idsF w \ visited.toFinset).card

/-- Induction package for `dfsVisit` at a given fuel: the visited set only
grows and stays inside `allIds`; a `true` answer exhibits a cycle reachable
from any root that reaches `u` (soundness); a `false` answer extends the
invariant that every visited id off the recursion stack has no reachable
cycle (completeness). -/
def dfsVisitGood (w : Workflow) (fuel : Nat) : Prop :=
  ∀ u visited stack, u ∈ allIds w → u ∉ visited → (∀ x ∈ visited, x ∈ allIds w) →
    cardRem w visited ≤ fuel →
    (∀ x ∈ visited, x ∈ (dfsVisit w fuel u visited stack).2) ∧
    (∀ x ∈ (dfsVisit w fuel u visited stack).2, x ∈ allIds w) ∧
    (u ∈ (dfsVisit w fuel u visited stack).2) ∧
    (∀ root, reach w root u → (∀ x ∈ stack, reach w root x ∧ reach w x u) →
      (dfsVisit w fuel u visited stack).1 = true →
      ∃ c, reach w root c ∧ cycleAt w c) ∧
    ((∀ x ∈ visited, x ∉ stack → safeFrom w x) →
      (dfsVisit w fuel u visited stack).1 = false →
      ∀ x ∈ (dfsVisit w fuel u visited stack).2, x ∉ stack → safeFrom w x)

/-- Induction package for `dfsScan` (the edge-scanning loop of `dfs`) at a
given fuel; `u` is the id whose out-edges are being scanned, already
visited and on the stack. -/
def dfsScanGood (w : Workflow) (fuel : Nat) : Prop :=
  ∀ es u visited stack, (∀ e ∈ es, e ∈ w.edges) → u ∈ visited →
    (∀ x ∈ visited, x ∈ allIds w) → cardRem w visited ≤ fuel →
    (∀ x ∈ visited, x ∈ (dfsScan w fuel es u visited stack).2) ∧
    (∀ x ∈ (dfsScan w fuel es u visited stack).2, x ∈ allIds w) ∧
    (∀ root, reach w root u → (∀ x ∈ stack, reach w root x ∧ reach w x u) →
      (dfsScan w fuel es u visited stack).1 = true →
      ∃ c, reach w root c ∧ cycleAt w c) ∧
    ((∀ x ∈ visited, x ∉ stack → safeFrom w x) →
      (∀ e ∈ w.edges, e.source = u → e ∈ es ∨ safeFrom w e.target) →
      (dfsScan w fuel es u visited stack).1 = false →
      (∀ x ∈ (dfsScan w fuel es u visited stack).2, x ∉ stack → safeFrom w x) ∧
      (∀ e ∈ w.edges, e.source = u → safeFrom w e.target))

/-- Concrete fixture: three nodes with recognized types and no declared
inputs. -/
def nodeA : WorkflowNode := { id := "a", type := .video_input, inputs := [] }

/-- Second fixture node. -/
def nodeB : WorkflowNode := { id := "b", type := .extract_faces, inputs := [] }

/-- Third fixture node. -/
def nodeC : WorkflowNode := { id := "c", type := .train_model, inputs := [] }

/-- Fixture node whose type tag falls through every branch of
`_create_node_instance`. -/
def utilityNode : WorkflowNode := { id := "u", type := .utility, inputs := [] }

/-- Fixture node declaring an input port `in` (with an upstream reference
string, as the schema stores). -/
def nodeWithInput : WorkflowNode :=
  { id := "a", type := .video_input, inputs := [("in", "upstream.out")] }

/-- Edge a → b. -/
def edgeAB : WorkflowEdge :=
  { id := "e-ab", source := "a", target := "b", sourceHandle := "out", targetHandle := "in" }

/-- Self-loop on the id `x`, which is not a node of any fixture workflow. -/
def edgeXX : WorkflowEdge :=
  { id := "e-xx", source := "x", target := "x", sourceHandle := "out", targetHandle := "in" }

/-- Acyclic two-node chain a → b with both endpoints present. -/
def chainWorkflow : Workflow := { id := "w-chain", nodes := [nodeA, nodeB], edges := [edgeAB] }

/-- Three independent nodes, no edges. -/
def freeThreeWorkflow : Workflow := { id := "w-free", nodes := [nodeA, nodeB, nodeC], edges := [] }

/-- One node `a`; the only edge is a self-loop on the phantom id `x`. -/
def phantomCycleWorkflow : Workflow := { id := "w-phantom", nodes := [nodeA], edges := [edgeXX] }

/-- One node that declares input port `in`; no edges at all. -/
def inputPortWorkflow : Workflow := { id := "w-input", nodes := [nodeWithInput], edges := [] }

/-- One node `a` plus an edge a → b whose target is not a node. -/
def danglingWorkflow : Workflow := { id := "w-dangling", nodes := [nodeA], edges := [edgeAB] }

/-- A paused execution context over `freeThreeWorkflow` with node `a`
already completed. -/
def pausedResumeCtx : EngineState :=
  { initState "wf-resume" freeThreeWorkflow with
      status := ExecutionStatus.paused, nodesCompleted := ["a"] }

/-- Oracle that makes exactly node `b` return an explicit failure dict. -/
def failBOracle : String → NodeOutcome :=
  fun nid => if nid = "b" then .failure "boom" else .success

/-- Oracle that always succeeds. -/
def allOkOracle : String → NodeOutcome := fun _ => .success

/-! ## General lemmas about the validator -/

/-- The required-input loop of `_validate_workflow` can never report a
violation: it tests each key of `node.inputs` for membership in
`node.inputs` itself. -/
theorem findMissingRequiredInput_eq_none (w : Workflow) :
    findMissingRequiredInput w = none := by
  rw [findMissingRequiredInput, List.findSome?_eq_none_iff]
  intro n _
  rw [List.findSome?_eq_none_iff]
  intro port hport
  simp [hport]

/-- `_validate_workflow` reduces to the cycle check alone. -/
theorem validateWorkflow_eq (w : Workflow) :
    validateWorkflow w =
      if hasCycles w then { valid := false, error := some "Workflow contains cycles" }
      else { valid := true, error := none } := by
  rw [validateWorkflow, findMissingRequiredInput_eq_none]

/-! ## C1: layering on acyclic graphs -/

/-- **C1.** The claim — the layering partitions the node set of every
acyclic, dangling-free workflow with sources before targets — fails on the
code: the readiness test compares each node's dependency set against the
`nodes_completed` set frozen at entry (empty for a fresh run), so on the
acyclic two-node chain a → b the second iteration produces an empty layer
and the loop raises `ValueError` instead of producing `[[a], [b]]`. -/
theorem claim1_layering_rejects_concrete_acyclic_chain :
    (¬ ∃ u, cycleAt chainWorkflow u) ∧
    (∀ e ∈ chainWorkflow.edges,
      e.source ∈ chainWorkflow.nodeIds ∧ e.target ∈ chainWorkflow.nodeIds) ∧
    computeLayers chainWorkflow [] = Except.error circularDependencyText := by
  have heval : computeLayers chainWorkflow [] = Except.error circularDependencyText := by
    show (do
      let deps ← buildDependencies chainWorkflow
      computeLayersGo deps [] chainWorkflow.nodeIds.dedup) = _
    rw [show buildDependencies chainWorkflow = Except.ok [("a", []), ("b", ["a"])] from rfl]
    show computeLayersGo [("a", []), ("b", ["a"])] [] (["a", "b"].dedup) = _
    rw [show (["a", "b"].dedup : List String) = ["a", "b"] from by decide]
    rw [computeLayersGo.eq_def]
    norm_num
    rw [computeLayersGo.eq_def]
    norm_num
    simp [show layerReady [("a", []), ("b", ["a"])] [] "a" = true from rfl,
          show layerReady [("a", []), ("b", ["a"])] [] "b" = false from rfl]
  refine ⟨?_, by decide, heval⟩
  rintro ⟨u, hu⟩
  have hu' : Relation.TransGen (edgeRel chainWorkflow) u u := hu
  have hstep : ∀ x y, edgeRel chainWorkflow x y → x = "a" ∧ y = "b" := by
    rintro x y ⟨e, he, hs, ht⟩
    have he' : e = edgeAB := by simpa [chainWorkflow] using he
    subst he'
    exact ⟨by simpa [edgeAB] using hs.symm, by simpa [edgeAB] using ht.symm⟩
  have hall : ∀ x y, Relation.TransGen (edgeRel chainWorkflow) x y → x = "a" ∧ y = "b" := by
    intro x y h
    induction h with
    | single h1 => exact hstep _ _ h1
    | tail _h1 h2 ih =>
      have h3 := hstep _ _ h2
      exact absurd (h3.1.symm.trans ih.2) (by decide)
  have := hall u u hu'
  exact absurd (this.1.symm.trans this.2) (by decide)

/-! ## C3: the required-input check -/

/-- **C3.** The claim — a node declaring a required input port with no
incoming edge fails validation with a reason naming node and port — is
contradicted by the code: the check compares each key of `node.inputs`
against `node.inputs` itself, so it never fires for any workflow, and the
concrete workflow whose single node declares port `in` with no incoming
edge validates as `valid`. -/
theorem claim3_required_input_check_never_fires :
    (∀ w : Workflow, findMissingRequiredInput w = none) ∧
    nodeWithInput.inputs.map Prod.fst = ["in"] ∧
    inputPortWorkflow.edges = [] ∧
    validateWorkflow inputPortWorkflow = { valid := true, error := none } :=
  ⟨findMissingRequiredInput_eq_none, rfl, rfl, rfl⟩

/-! ## C10: the public run entry point -/

/-- **C10.** For every workflow id, execution id, run-table state and node
oracle, `execute_workflow` returns `{"success": False, "error": "Workflow
not found"}` (because `_load_workflow` is a stub returning `None`),
without validating, layering or dispatching anything, and the `finally`
clause leaves the execution id absent from the run table. -/
theorem claim10_run_entry_always_workflow_not_found
    (workflowId executionId : String) (table : List (String × EngineState))
    (f : String → NodeOutcome) :
    (executeWorkflowEntry workflowId executionId table f).result =
      { success := false, error := some "Workflow not found", message := none } ∧
    (executeWorkflowEntry workflowId executionId table f).validated = false ∧
    (executeWorkflowEntry workflowId executionId table f).dispatched = [] ∧
    (executeWorkflowEntry workflowId executionId table f).table.find?
      (fun p => p.1 = executionId) = none := by
  refine ⟨rfl, rfl, rfl, ?_⟩
  rw [List.find?_eq_none]
  intro x hx
  have hmem : x ∈ table ∧ x.1 ≠ executionId := by
    have := List.mem_filter.mp hx
    exact ⟨this.1, by simpa using this.2⟩
  simpa using hmem.2

/-! ## C7: resume -/

/-- **C7.** The claim — resuming a paused execution runs exactly the nodes
in `all − completed − failed` and never re-runs a completed node — fails on
the code: `resume_execution` re-enters `execute_workflow` from scratch,
which (its loader being a stub) returns `Workflow not found`; on the
concrete paused execution with `a` completed and `b`, `c` remaining, the
resume call dispatches no node at all and evicts the execution. -/
theorem claim7_resume_runs_nothing_and_reports_not_found :
    resumeExecution [("exec-1", pausedResumeCtx)] "exec-1" allOkOracle =
      Except.ok
        ({ success := false, error := some "Workflow not found", message := none }, [], []) ∧
    pausedResumeCtx.workflow.nodeIds.filter
      (fun nid => !(pausedResumeCtx.nodesCompleted.contains nid) &&
                  !(pausedResumeCtx.nodesFailed.contains nid)) = ["b", "c"] :=
  ⟨rfl, rfl⟩

/-! ## C8: dispatch of unknown node types -/

/-- **C8 counterexample.**  The claim says an unrecognized node type yields
a failure with error category `configuration`.  On the concrete node of
type `utility` (no branch of `_create_node_instance` matches it), the
run does fail, but the recorded category is `execution` — the abstract
`BaseNode` instantiation fault is caught by `_execute_node_parallel` and
routed through `handle_execution_error` — not `configuration`. -/
theorem claim8_counterexample :
    recognizedNodeType utilityNode.type = false ∧
    (executeNodeParallel utilityNode allOkOracle).1.success = false ∧
    (executeNodeParallel utilityNode allOkOracle).2.map ErrorRecord.category =
      [ErrorCategory.execution] ∧
    ErrorCategory.execution ≠ ErrorCategory.configuration :=
  ⟨rfl, rfl, rfl, by decide⟩

/-- **C8 (amended).**  Dispatching and executing a node whose type tag is
not matched by `_create_node_instance` always yields a failure result —
never success — and the diagnostic record carries severity `high` and
category `execution` (not `configuration`: the instantiation fault is
indistinguishable, to the scheduler, from a node raising mid-run). -/
theorem claim8_unknown_type_fails_with_execution_category
    (node : WorkflowNode) (f : String → NodeOutcome)
    (h : recognizedNodeType node.type = false) :
    (executeNodeParallel node f).1.success = false ∧
    (executeNodeParallel node f).2 =
      [executionErrorRecord abstractBaseNodeText node.id] ∧
    (executeNodeParallel node f).2.map ErrorRecord.category =
      [ErrorCategory.execution] := by
  have hz : createNodeInstance node = Except.error abstractBaseNodeText := by
    rw [createNodeInstance]
    cases htype : node.type <;>
      simp_all [recognizedNodeType, recognizedTypeValues, NodeType.value]
  rw [executeNodeParallel, hz]
  exact ⟨rfl, rfl, rfl⟩

/-- **C8 witness.**  The amended theorem applied to the concrete `utility`
node. -/
theorem claim8_witness :
    recognizedNodeType utilityNode.type = false ∧
    ((executeNodeParallel utilityNode allOkOracle).1.success = false ∧
     (executeNodeParallel utilityNode allOkOracle).2 =
       [executionErrorRecord abstractBaseNodeText utilityNode.id] ∧
     (executeNodeParallel utilityNode allOkOracle).2.map ErrorRecord.category =
       [ErrorCategory.execution]) :=
  ⟨rfl, claim8_unknown_type_fails_with_execution_category utilityNode allOkOracle rfl⟩

/-! ## C6: stop and the scheduling of further layers -/

/-- **C6 counterexample.**  The claim says that once a stop has taken
effect (the execution's status flipped), no node of a not-yet-started
layer is ever dispatched.  Concretely: stopping does set the status to
`paused`, but running the scheduler loop on the two layers `[[a], [b]]`
from a paused state still dispatches `b`, the sole node of the second
layer — the loop never consults the status. -/
theorem claim6_counterexample :
    (stopExecution [("exec-1", initState "wf" freeThreeWorkflow)] "exec-1").map
      (fun p => (p.1, p.2.status)) = [("exec-1", ExecutionStatus.paused)] ∧
    "b" ∈ (runLayers freeThreeWorkflow allOkOracle 3 [["a"], ["b"]]
      { initState "wf" freeThreeWorkflow with status := ExecutionStatus.paused }).dispatched := by
  exact ⟨rfl, by decide⟩

/-- **C6 (amended).**  `stop_execution` only rewrites the stored status of
the targeted execution to `paused`; the layer loop is entirely insensitive
to the status field — it dispatches every remaining layer unless some node
has already failed, so a stop does not halt the scheduling of further
layers (in-flight nodes are of course not interrupted either). -/
theorem processOutcome_status (st : EngineState) (s : ExecutionStatus)
    (nid : String) (res : ExecResultDict) :
    processOutcome { st with status := s } nid res =
      { processOutcome st nid res with status := s } := by
  unfold processOutcome
  by_cases h : res.success <;> simp [h]

theorem foldProcess_status (pairs : List (String × ExecResultDict))
    (st : EngineState) (s : ExecutionStatus) :
    pairs.foldl (fun a p => processOutcome a p.1 p.2) { st with status := s } =
      { pairs.foldl (fun a p => processOutcome a p.1 p.2) st with status := s } := by
  induction pairs generalizing st with
  | nil => rfl
  | cons p ps ih =>
    simp only [List.foldl_cons, processOutcome_status]
    exact ih _

theorem runLayer_status (w : Workflow) (f : String → NodeOutcome)
    (layer : List String) (st : EngineState) (s : ExecutionStatus) :
    runLayer w f layer { st with status := s } =
      { runLayer w f layer st with status := s } := by
  unfold runLayer
  dsimp only
  exact foldProcess_status _
    { st with
        dispatched := st.dispatched ++
          ((layer.filterMap fun nid => w.nodes.find? fun n => n.id = nid).map WorkflowNode.id),
        errorLog := st.errorLog ++
          (((layer.filterMap fun nid => w.nodes.find? fun n => n.id = nid).map
            fun n => executeNodeParallel n f).map Prod.snd).flatten } s

theorem claim6_stop_pauses_but_scheduler_ignores_status :
    (∀ (table : List (String × EngineState)) (executionId : String),
      stopExecution table executionId =
        table.map fun p =>
          if p.1 = executionId then (p.1, { p.2 with status := ExecutionStatus.paused })
          else p) ∧
    (∀ (w : Workflow) (f : String → NodeOutcome) (total : Nat)
       (layers : List (List String)) (st : EngineState) (s : ExecutionStatus),
      runLayers w f total layers { st with status := s } =
        { runLayers w f total layers st with status := s }) := by
  constructor
  · intro table executionId
    rfl
  · intro w f total layers
    induction layers with
    | nil => intro st s; rfl
    | cons layer rest ih =>
      intro st s
      simp only [runLayers]
      by_cases hf : st.nodesFailed = []
      · rw [if_neg (by simp [hf] : ¬({ st with status := s } : EngineState).nodesFailed ≠ []),
            if_neg (by simp [hf] : ¬st.nodesFailed ≠ []), runLayer_status]
        have hup : updateProgress total { runLayer w f layer st with status := s } =
            { updateProgress total (runLayer w f layer st) with status := s } := rfl
        rw [hup]
        exact ih _ _
      · rw [if_pos (by simpa using hf : ({ st with status := s } : EngineState).nodesFailed ≠ []),
            if_pos hf]

/-! ## C4: dangling edges -/

/-- If some edge of the list has an endpoint outside the node-key set, the
dependency-map construction raises (returns a `KeyError`), whatever the
accumulated map is. -/
theorem buildDependenciesGo_error (nodeKeys : List String) (es : List WorkflowEdge)
    (deps : List (String × List String))
    (h : ∃ e ∈ es, e.source ∉ nodeKeys ∨ e.target ∉ nodeKeys) :
    ∃ m, buildDependenciesGo nodeKeys es deps = Except.error m := by
  induction es generalizing deps with
  | nil => simp at h
  | cons e rest ih =>
    by_cases ht : e.target ∈ nodeKeys
    · by_cases hs : e.source ∈ nodeKeys
      · rcases h with ⟨e2, he2, hbad⟩
        rcases List.mem_cons.mp he2 with rfl | hmem
        · rcases hbad with hb | hb <;> contradiction
        · have := ih (assocAdd deps e.target e.source) ⟨e2, hmem, hbad⟩
          simpa [buildDependenciesGo, ht, hs] using this
      · exact ⟨keyErrorText e.source, by simp [buildDependenciesGo, ht, hs]⟩
    · exact ⟨keyErrorText e.target, by simp [buildDependenciesGo, ht]⟩

/-- **C4 counterexample.**  The claim says the engine fails *validation* on
a workflow with a dangling edge.  On the concrete workflow with the single
node `a` and the edge a → b (`b` is no node), `_validate_workflow` returns
`valid` — it has no dangling-reference check. -/
theorem claim4_counterexample :
    (∃ e ∈ danglingWorkflow.edges, e.target ∉ danglingWorkflow.nodeIds) ∧
    validateWorkflow danglingWorkflow = { valid := true, error := none } :=
  ⟨⟨edgeAB, by decide, by decide⟩, rfl⟩

/-- **C4 (amended).**  Validation does not reject dangling edges; instead
the dependency-map construction of `_execute_workflow_parallel` raises a
`KeyError` on the missing endpoint, which `execute_workflow`'s handler
converts into a structured `{"success": False}` result — before any node
has been dispatched, and without crashing. -/
theorem claim4_dangling_edge_fails_run_not_validation
    (workflowId : String) (w : Workflow) (f : String → NodeOutcome)
    (h : ∃ e ∈ w.edges, e.source ∉ w.nodeIds ∨ e.target ∉ w.nodeIds) :
    (∃ m, buildDependencies w = Except.error m) ∧
    (executeLoadedWorkflow workflowId w f).1.success = false ∧
    (executeLoadedWorkflow workflowId w f).2.dispatched = [] := by
  obtain ⟨m, hm⟩ := buildDependenciesGo_error w.nodeIds w.edges
    (w.nodes.map fun n => (n.id, [])) h
  have hbd : buildDependencies w = Except.error m := hm
  refine ⟨⟨m, hbd⟩, ?_⟩
  rw [executeLoadedWorkflow]
  by_cases hv : (validateWorkflow w).valid = false
  · rw [if_pos hv]
    exact ⟨rfl, rfl⟩
  · rw [if_neg hv]
    have hpar : executeWorkflowParallel w f (initState workflowId w) = Except.error m := by
      rw [executeWorkflowParallel, hbd]
      rfl
    rw [hpar]
    exact ⟨rfl, rfl⟩

/-- **C4 witness.**  The amended theorem applied to the concrete dangling
workflow. -/
theorem claim4_witness :
    (∃ e ∈ danglingWorkflow.edges,
      e.source ∉ danglingWorkflow.nodeIds ∨ e.target ∉ danglingWorkflow.nodeIds) ∧
    ((∃ m, buildDependencies danglingWorkflow = Except.error m) ∧
     (executeLoadedWorkflow "w-dangling" danglingWorkflow allOkOracle).1.success = false ∧
     (executeLoadedWorkflow "w-dangling" danglingWorkflow allOkOracle).2.dispatched = []) :=
  ⟨⟨edgeAB, by decide, Or.inr (by decide)⟩,
   claim4_dangling_edge_fails_run_not_validation "w-dangling" danglingWorkflow allOkOracle
     ⟨edgeAB, by decide, Or.inr (by decide)⟩⟩

/-! ## C9: termination of the layering loop -/

/-- **C9.** The layering loop always terminates, and in exactly the two
ways the claim describes: either every iteration peels off a non-empty
layer until the remaining set is empty (the layers formed are a
permutation of the remaining ids), or an iteration produces an empty layer
while ids remain and the loop aborts by raising
`ValueError("Circular dependency detected or unable to resolve
dependencies")`.  (Termination itself is witnessed by the function being
total: each recursive call strictly shrinks the remaining list.) -/
theorem claim9_layering_peels_nonempty_layers_or_aborts
    (deps : List (String × List String)) (completed remaining : List String) :
    computeLayersGo deps completed remaining = Except.error circularDependencyText ∨
    ∃ ls, computeLayersGo deps completed remaining = Except.ok ls ∧
      (∀ l ∈ ls, l ≠ []) ∧ ls.flatten.Perm remaining := by
  have main : ∀ (n : Nat) (remaining : List String), remaining.length ≤ n →
      computeLayersGo deps completed remaining = Except.error circularDependencyText ∨
      ∃ ls, computeLayersGo deps completed remaining = Except.ok ls ∧
        (∀ l ∈ ls, l ≠ []) ∧ ls.flatten.Perm remaining := by
    intro n
    induction n with
    | zero =>
      intro rem hlen
      have hnil : rem = [] := List.eq_nil_of_length_eq_zero (Nat.le_zero.mp hlen)
      subst hnil
      right
      exact ⟨[], by rw [computeLayersGo.eq_def]; rfl, by simp, by simp⟩
    | succ k ih =>
      intro rem hlen
      by_cases h0 : rem = []
      · subst h0
        right
        exact ⟨[], by rw [computeLayersGo.eq_def]; rfl, by simp, by simp⟩
      · rw [computeLayersGo.eq_def]
        simp only [h0, if_false]
        by_cases hcur : rem.filter (layerReady deps completed) = []
        · left
          simp [hcur]
        · simp only [hcur, dif_neg, dite_eq_ite, if_false]
          have hlt : (rem.filter fun x => !layerReady deps completed x).length < rem.length := by
            rcases List.exists_mem_of_ne_nil _ hcur with ⟨x, hx⟩
            exact length_filter_lt_of_mem_not_kept (List.mem_filter.mp hx).1
              (by simp [(List.mem_filter.mp hx).2])
          rcases ih (rem.filter fun x => !layerReady deps completed x)
              (Nat.le_of_lt_succ (Nat.lt_of_lt_of_le hlt hlen)) with herr | ⟨ls, hok, hne, hperm⟩
          · rw [herr]
            left
            rfl
          · rw [hok]
            right
            refine ⟨rem.filter (layerReady deps completed) :: ls, rfl, ?_, ?_⟩
            · intro l hl
              rcases List.mem_cons.mp hl with rfl | hmem
              · exact hcur
              · exact hne l hmem
            · show (rem.filter (layerReady deps completed) ++ ls.flatten).Perm rem
              exact (List.Perm.append_left _ hperm).trans (List.filter_append_perm _ rem)
  exact main remaining.length remaining (le_refl _)

/-! ## Lemmas on the result-processing fold (towards C2) -/

theorem addId_mem (s : List String) (v m : String) :
    m ∈ addId s v ↔ m ∈ s ∨ m = v := by
  unfold addId
  by_cases h : v ∈ s
  · simp only [h, if_true]
    constructor
    · exact Or.inl
    · rintro (hm | rfl)
      · exact hm
      · exact h
  · simp [h]

theorem processOutcome_eq (st : EngineState) (k : String) (r : ExecResultDict) :
    processOutcome st k r =
      { st with
          nodeStatusMap := setNodeStatus st.nodeStatusMap k
            (if r.success then NodeStatus.completed else NodeStatus.error),
          nodesCompleted := if r.success then addId st.nodesCompleted k else st.nodesCompleted,
          nodesFailed := if r.success then st.nodesFailed else addId st.nodesFailed k } := by
  by_cases h : r.success = true
  · rw [processOutcome, if_pos h, if_pos h, if_pos h, if_pos h]
  · rw [processOutcome, if_neg h, if_neg h, if_neg h, if_neg h]

theorem find?_setNodeStatus_self (mp : List (String × NodeStatus)) (k : String)
    (v : NodeStatus) :
    (setNodeStatus mp k v).find? (fun p => p.1 = k) =
      (mp.find? fun p => p.1 = k).map fun p => (p.1, v) := by
  induction mp with
  | nil => rfl
  | cons q t ih =>
    by_cases hq : q.1 = k
    · simp [setNodeStatus, List.find?_cons, hq]
    · simp only [setNodeStatus, List.map_cons, if_neg hq]
      rw [List.find?_cons_of_neg _ (by simpa using hq),
          List.find?_cons_of_neg _ (by simpa using hq)]
      exact ih

theorem find?_setNodeStatus_ne (mp : List (String × NodeStatus)) (k m : String)
    (v : NodeStatus) (hne : k ≠ m) :
    (setNodeStatus mp k v).find? (fun p => p.1 = m) = mp.find? (fun p => p.1 = m) := by
  induction mp with
  | nil => rfl
  | cons q t ih =>
    by_cases hq : q.1 = k
    · have hqm : ¬ q.1 = m := fun hm => hne (hq ▸ hm)
      simp only [setNodeStatus, List.map_cons, if_pos hq]
      rw [List.find?_cons_of_neg _ (by simpa using hqm),
          List.find?_cons_of_neg _ (by simpa using hqm)]
      exact ih
    · simp only [setNodeStatus, List.map_cons, if_neg hq]
      by_cases hm : q.1 = m
      · rw [List.find?_cons_of_pos _ (by simpa using hm),
            List.find?_cons_of_pos _ (by simpa using hm)]
      · rw [List.find?_cons_of_neg _ (by simpa using hm),
            List.find?_cons_of_neg _ (by simpa using hm)]
        exact ih

/-- The processing fold never touches the dispatched list, the status or
the workflow. -/
theorem foldProcess_fixed (pairs : List (String × ExecResultDict)) (st : EngineState) :
    (pairs.foldl (fun s p => processOutcome s p.1 p.2) st).dispatched = st.dispatched ∧
    (pairs.foldl (fun s p => processOutcome s p.1 p.2) st).status = st.status ∧
    (pairs.foldl (fun s p => processOutcome s p.1 p.2) st).workflow = st.workflow := by
  induction pairs generalizing st with
  | nil => exact ⟨rfl, rfl, rfl⟩
  | cons p ps ih =>
    rw [List.foldl_cons]
    obtain ⟨h1, h2, h3⟩ := ih (processOutcome st p.1 p.2)
    refine ⟨?_, ?_, ?_⟩
    · rw [h1, processOutcome_eq]
    · rw [h2, processOutcome_eq]
    · rw [h3, processOutcome_eq]

/-- Membership in `nodes_failed` after the processing fold. -/
theorem foldProcess_failed_mem (pairs : List (String × ExecResultDict))
    (st : EngineState) (m : String) :
    (m ∈ (pairs.foldl (fun s p => processOutcome s p.1 p.2) st).nodesFailed) ↔
      m ∈ st.nodesFailed ∨ ∃ p ∈ pairs, p.1 = m ∧ p.2.success = false := by
  induction pairs generalizing st with
  | nil => simp
  | cons p ps ih =>
    rw [List.foldl_cons, ih, processOutcome_eq]
    dsimp only
    by_cases h : p.2.success = true
    · rw [if_pos h]
      constructor
      · rintro (hm | ⟨q, hq, hq1, hq2⟩)
        · exact Or.inl hm
        · exact Or.inr ⟨q, List.mem_cons_of_mem _ hq, hq1, hq2⟩
      · rintro (hm | ⟨q, hq, hq1, hq2⟩)
        · exact Or.inl hm
        · rcases List.mem_cons.mp hq with rfl | hq'
          · rw [hq2] at h; cases h
          · exact Or.inr ⟨q, hq', hq1, hq2⟩
    · have h' : p.2.success = false := by simpa using h
      rw [if_neg h]
      constructor
      · rintro (hm | ⟨q, hq, hq1, hq2⟩)
        · rcases (addId_mem _ _ _).mp hm with hm' | rfl
          · exact Or.inl hm'
          · exact Or.inr ⟨p, List.mem_cons_self _ _, rfl, h'⟩
        · exact Or.inr ⟨q, List.mem_cons_of_mem _ hq, hq1, hq2⟩
      · rintro (hm | ⟨q, hq, hq1, hq2⟩)
        · exact Or.inl ((addId_mem _ _ _).mpr (Or.inl hm))
        · rcases List.mem_cons.mp hq with rfl | hq'
          · exact Or.inl ((addId_mem _ _ _).mpr (Or.inr hq1.symm))
          · exact Or.inr ⟨q, hq', hq1, hq2⟩

/-- Membership in `nodes_completed` after the processing fold. -/
theorem foldProcess_completed_mem (pairs : List (String × ExecResultDict))
    (st : EngineState) (m : String) :
    (m ∈ (pairs.foldl (fun s p => processOutcome s p.1 p.2) st).nodesCompleted) ↔
      m ∈ st.nodesCompleted ∨ ∃ p ∈ pairs, p.1 = m ∧ p.2.success = true := by
  induction pairs generalizing st with
  | nil => simp
  | cons p ps ih =>
    rw [List.foldl_cons, ih, processOutcome_eq]
    dsimp only
    by_cases h : p.2.success = true
    · rw [if_pos h]
      constructor
      · rintro (hm | ⟨q, hq, hq1, hq2⟩)
        · rcases (addId_mem _ _ _).mp hm with hm' | rfl
          · exact Or.inl hm'
          · exact Or.inr ⟨p, List.mem_cons_self _ _, rfl, h⟩
        · exact Or.inr ⟨q, List.mem_cons_of_mem _ hq, hq1, hq2⟩
      · rintro (hm | ⟨q, hq, hq1, hq2⟩)
        · exact Or.inl ((addId_mem _ _ _).mpr (Or.inl hm))
        · rcases List.mem_cons.mp hq with rfl | hq'
          · exact Or.inl ((addId_mem _ _ _).mpr (Or.inr hq1.symm))
          · exact Or.inr ⟨q, hq', hq1, hq2⟩
    · rw [if_neg h]
      constructor
      · rintro (hm | ⟨q, hq, hq1, hq2⟩)
        · exact Or.inl hm
        · exact Or.inr ⟨q, List.mem_cons_of_mem _ hq, hq1, hq2⟩
      · rintro (hm | ⟨q, hq, hq1, hq2⟩)
        · exact Or.inl hm
        · rcases List.mem_cons.mp hq with rfl | hq'
          · rw [hq2] at h; cases h rfl
          · exact Or.inr ⟨q, hq', hq1, hq2⟩

/-- An all-success batch leaves `nodes_failed` untouched. -/
theorem foldProcess_failed_of_ok (pairs : List (String × ExecResultDict))
    (st : EngineState) (h : ∀ p ∈ pairs, p.2.success = true) :
    (pairs.foldl (fun s p => processOutcome s p.1 p.2) st).nodesFailed = st.nodesFailed := by
  induction pairs generalizing st with
  | nil => rfl
  | cons p ps ih =>
    rw [List.foldl_cons, ih _ fun q hq => h q (List.mem_cons_of_mem _ hq), processOutcome_eq]
    dsimp only
    rw [if_pos (h p (List.mem_cons_self _ _))]

/-- Ids outside the batch keep their recorded status. -/
theorem foldProcess_find?_not_mem (pairs : List (String × ExecResultDict))
    (st : EngineState) (m : String) (h : m ∉ pairs.map Prod.fst) :
    ((pairs.foldl (fun s p => processOutcome s p.1 p.2) st).nodeStatusMap.find?
      fun p => p.1 = m) = st.nodeStatusMap.find? fun p => p.1 = m := by
  induction pairs generalizing st with
  | nil => rfl
  | cons p ps ih =>
    simp only [List.map_cons, List.mem_cons, not_or] at h
    rw [List.foldl_cons, ih _ h.2, processOutcome_eq]
    dsimp only
    exact find?_setNodeStatus_ne _ _ _ _ fun hk => h.1 hk.symm

/-- An id processed in a batch with pairwise-distinct keys ends with the
status its own outcome dictates. -/
theorem foldProcess_find?_mem (pairs : List (String × ExecResultDict))
    (st : EngineState) (m : String) (res : ExecResultDict)
    (hmem : (m, res) ∈ pairs) (hnd : (pairs.map Prod.fst).Nodup) :
    ((pairs.foldl (fun s p => processOutcome s p.1 p.2) st).nodeStatusMap.find?
      fun p => p.1 = m) =
      (st.nodeStatusMap.find? fun p => p.1 = m).map
        fun p => (p.1, if res.success then NodeStatus.completed else NodeStatus.error) := by
  induction pairs generalizing st with
  | nil => cases hmem
  | cons p ps ih =>
    simp only [List.map_cons, List.nodup_cons] at hnd
    rcases List.mem_cons.mp hmem with heq | hmem'
    · have hm : p.1 = m := by rw [← heq]
      have hres : p.2 = res := by rw [← heq]
      have hnot : m ∉ ps.map Prod.fst := hm ▸ hnd.1
      rw [List.foldl_cons, foldProcess_find?_not_mem _ _ _ hnot, processOutcome_eq]
      dsimp only
      rw [hm, hres] at *
      rw [find?_setNodeStatus_self]
    · have hne : p.1 ≠ m := by
        intro hk
        exact hnd.1 (hk ▸ List.mem_map.mpr ⟨(m, res), hmem', rfl⟩)
      rw [List.foldl_cons, ih _ hmem' hnd.2, processOutcome_eq]
      dsimp only
      rw [find?_setNodeStatus_ne _ _ _ _ hne]

/-! ## Characterizing one layer (towards C2) -/

theorem find?_node_of_mem (w : Workflow) (nid : String) (h : nid ∈ w.nodeIds) :
    ∃ n, (w.nodes.find? fun n => n.id = nid) = some n ∧ n.id = nid := by
  obtain ⟨n0, hn0, hid⟩ := List.mem_map.mp h
  have hsome : (w.nodes.find? fun n => decide (n.id = nid)).isSome :=
    List.find?_isSome.mpr ⟨n0, hn0, by simp [hid]⟩
  obtain ⟨n, hn⟩ := Option.isSome_iff_exists.mp hsome
  exact ⟨n, hn, by simpa using List.find?_some hn⟩

theorem zip_self_map {α β : Type} (l : List α) (g : α → β) :
    l.zip (l.map g) = l.map fun x => (x, g x) := by
  induction l with
  | nil => rfl
  | cons a t ih => simp [ih]

theorem map_fst_pairs (layer : List String) (g : String → ExecResultDict) :
    ((layer.map fun nid => (nid, g nid)).map Prod.fst) = layer := by
  rw [List.map_map]
  exact List.map_id layer

theorem pairs_exists_iff (layer : List String) (g : String → ExecResultDict)
    (m : String) (b : Bool) :
    (∃ p ∈ layer.map fun nid => (nid, g nid), p.1 = m ∧ p.2.success = b) ↔
      m ∈ layer ∧ (g m).success = b := by
  constructor
  · rintro ⟨p, hp, h1, h2⟩
    obtain ⟨nid, hnid, rfl⟩ := List.mem_map.mp hp
    dsimp only at h1 h2
    subst h1
    exact ⟨hnid, h2⟩
  · rintro ⟨hm, hg⟩
    exact ⟨(m, g m), List.mem_map.mpr ⟨m, hm, rfl⟩, rfl, hg⟩

/-- With every layer id resolving to a node, the gather/processing section
of `_execute_workflow_parallel` is the processing fold over the pairs
`(id, outcome of that node)`, after recording the whole layer as
dispatched. -/
theorem runLayer_eq (w : Workflow) (f : String → NodeOutcome) (layer : List String)
    (st : EngineState) (h : ∀ nid ∈ layer, nid ∈ w.nodeIds) :
    ∃ el, runLayer w f layer st =
      (layer.map fun nid => (nid, nodeRunResult w f nid)).foldl
        (fun s p => processOutcome s p.1 p.2)
        { st with dispatched := st.dispatched ++ layer, errorLog := el } := by
  have hfound : ∀ (l : List String), (∀ nid ∈ l, nid ∈ w.nodeIds) →
      (l.filterMap fun nid => w.nodes.find? fun n => n.id = nid).map WorkflowNode.id = l ∧
      ((l.filterMap fun nid => w.nodes.find? fun n => n.id = nid).map
        fun n => (executeNodeParallel n f).1) = l.map (nodeRunResult w f) := by
    intro l hl
    induction l with
    | nil => exact ⟨rfl, rfl⟩
    | cons nid rest ih =>
      obtain ⟨n, hn, hid⟩ := find?_node_of_mem w nid (hl nid (List.mem_cons_self _ _))
      obtain ⟨ih1, ih2⟩ := ih fun x hx => hl x (List.mem_cons_of_mem _ hx)
      constructor
      · simp only [List.filterMap_cons, hn, List.map_cons, ih1, hid]
      · simp only [List.filterMap_cons, hn, List.map_cons, ih2, nodeRunResult, hn]
  obtain ⟨h1, h2⟩ := hfound layer h
  refine ⟨st.errorLog ++
    (((layer.filterMap fun nid => w.nodes.find? fun n => n.id = nid).map
      fun n => executeNodeParallel n f).map Prod.snd).flatten, ?_⟩
  unfold runLayer
  dsimp only
  rw [show ((layer.filterMap fun nid => w.nodes.find? fun n => n.id = nid).map
        fun n => executeNodeParallel n f).map Prod.fst =
      layer.map (nodeRunResult w f) from by rw [List.map_map]; exact h2]
  rw [h1, zip_self_map]

/-- The facts about one executed layer that the claims use. -/
theorem runLayer_fields (w : Workflow) (f : String → NodeOutcome) (layer : List String)
    (st : EngineState) (h : ∀ nid ∈ layer, nid ∈ w.nodeIds) :
    (runLayer w f layer st).dispatched = st.dispatched ++ layer ∧
    ((∀ m ∈ layer, (nodeRunResult w f m).success = true) →
      (runLayer w f layer st).nodesFailed = st.nodesFailed) ∧
    (∀ m, m ∉ layer →
      ((runLayer w f layer st).nodeStatusMap.find? fun p => p.1 = m) =
        st.nodeStatusMap.find? fun p => p.1 = m) ∧
    (∀ m, m ∈ (runLayer w f layer st).nodesFailed ↔
      m ∈ st.nodesFailed ∨ (m ∈ layer ∧ (nodeRunResult w f m).success = false)) ∧
    (∀ m, m ∈ (runLayer w f layer st).nodesCompleted ↔
      m ∈ st.nodesCompleted ∨ (m ∈ layer ∧ (nodeRunResult w f m).success = true)) ∧
    (layer.Nodup → ∀ m ∈ layer,
      ((runLayer w f layer st).nodeStatusMap.find? fun p => p.1 = m) =
        (st.nodeStatusMap.find? fun p => p.1 = m).map
          (fun p => (p.1, if (nodeRunResult w f m).success then NodeStatus.completed
                          else NodeStatus.error))) := by
  obtain ⟨el, heq⟩ := runLayer_eq w f layer st h
  rw [heq]
  refine ⟨?_, ?_, ?_, ?_, ?_, ?_⟩
  · rw [(foldProcess_fixed _ _).1]
  · intro hok
    rw [foldProcess_failed_of_ok]
    rintro p hp
    obtain ⟨nid, hnid, rfl⟩ := List.mem_map.mp hp
    exact hok nid hnid
  · intro m hm
    rw [foldProcess_find?_not_mem]
    rw [map_fst_pairs]
    exact hm
  · intro m
    rw [foldProcess_failed_mem, pairs_exists_iff]
  · intro m
    rw [foldProcess_completed_mem, pairs_exists_iff]
  · intro hnd m hm
    rw [foldProcess_find?_mem _ _ m (nodeRunResult w f m)
      (List.mem_map.mpr ⟨m, hm, rfl⟩) (by rw [map_fst_pairs]; exact hnd)]

/-! ## The layer loop (towards C2) -/

/-- Once some node has failed, the loop breaks before dispatching anything
else. -/
theorem runLayers_break (w : Workflow) (f : String → NodeOutcome) (total : Nat)
    (ls : List (List String)) (st : EngineState) (h : st.nodesFailed ≠ []) :
    runLayers w f total ls st = st := by
  cases ls with
  | nil => rfl
  | cons l rest => simp [runLayers, h]

/-- Status map of a freshly created execution context. -/
theorem find?_idle_map (ns : List WorkflowNode) (m : String)
    (h : m ∈ ns.map WorkflowNode.id) :
    ((ns.map fun n => (n.id, NodeStatus.idle)).find? fun p => p.1 = m) =
      some (m, NodeStatus.idle) := by
  induction ns with
  | nil => cases h
  | cons n t ih =>
    by_cases hm : n.id = m
    · simp only [List.map_cons]
      rw [List.find?_cons_of_pos _ (by simpa using hm), hm]
    · simp only [List.map_cons]
      rw [List.find?_cons_of_neg _ (by simpa using hm)]
      refine ih ?_
      rcases List.mem_cons.mp h with h1 | h1
      · exact absurd h1.symm hm
      · exact h1

/-- Running a prefix of all-successful layers reaches the suffix with the
failed set still empty, exactly the prefix recorded as dispatched, and the
status of every id outside the prefix untouched. -/
theorem runLayers_ok_prefix (w : Workflow) (f : String → NodeOutcome) (total : Nat)
    (pre rest2 : List (List String)) (st : EngineState)
    (hok : ∀ l ∈ pre, ∀ m ∈ l, (nodeRunResult w f m).success = true)
    (hkeys : ∀ l ∈ pre, ∀ m ∈ l, m ∈ w.nodeIds)
    (hfail0 : st.nodesFailed = []) :
    ∃ st2, runLayers w f total (pre ++ rest2) st = runLayers w f total rest2 st2 ∧
      st2.nodesFailed = [] ∧
      st2.dispatched = st.dispatched ++ pre.flatten ∧
      (∀ m, m ∉ pre.flatten →
        (st2.nodeStatusMap.find? fun p => p.1 = m) =
          st.nodeStatusMap.find? fun p => p.1 = m) := by
  induction pre generalizing st with
  | nil => exact ⟨st, rfl, hfail0, by simp, fun m _ => rfl⟩
  | cons layer pre' ih =>
    obtain ⟨hdisp, hfok, hstat, _, _, _⟩ :=
      runLayer_fields w f layer st (hkeys layer (List.mem_cons_self _ _))
    have hlayerok : ∀ m ∈ layer, (nodeRunResult w f m).success = true :=
      hok layer (List.mem_cons_self _ _)
    have hstep : runLayers w f total ((layer :: pre') ++ rest2) st =
        runLayers w f total (pre' ++ rest2) (updateProgress total (runLayer w f layer st)) := by
      show (if st.nodesFailed ≠ [] then st else _) = _
      rw [if_neg (by simp [hfail0])]
      rfl
    obtain ⟨st2, h1, h2, h3, h4⟩ := ih (updateProgress total (runLayer w f layer st))
      (fun l hl => hok l (List.mem_cons_of_mem _ hl))
      (fun l hl => hkeys l (List.mem_cons_of_mem _ hl))
      (by show (runLayer w f layer st).nodesFailed = []
          rw [hfok hlayerok, hfail0])
    refine ⟨st2, hstep.trans h1, h2, ?_, ?_⟩
    · rw [h3]
      show (runLayer w f layer st).dispatched ++ pre'.flatten = _
      rw [hdisp, List.flatten_cons, List.append_assoc]
    · intro m hm
      have hm1 : m ∉ layer := fun hc => hm (by
        rw [List.flatten_cons]
        exact List.mem_append.mpr (Or.inl hc))
      have hm2 : m ∉ pre'.flatten := fun hc => hm (by
        rw [List.flatten_cons]
        exact List.mem_append.mpr (Or.inr hc))
      rw [h4 m hm2]
      show ((runLayer w f layer st).nodeStatusMap.find? fun p => p.1 = m) = _
      exact hstat m hm1

theorem headI_mem_self {l : List String} (h : l ≠ []) : l.headI ∈ l := by
  cases l with
  | nil => exact absurd rfl h
  | cons a t => exact List.mem_cons_self _ _

/-! ## C2: a failing node in a layer -/

/-- **C2.**  Decompose the layer list as `pre ++ failLayer :: post` with all
nodes of the earlier layers succeeding and some node `n` of `failLayer`
failing (an explicit `{"success": False}` dict and a raised fault are
indistinguishable here: both reach the scheduler as a failure dict, see
`executeNodeParallel`).  Then the scheduler loop started on a fresh
context: records `n` in the failed set and sets its status to `error`;
records the outcome of every other node of the same layer (completed on
success, failed on failure); dispatches exactly the earlier layers and the
failing layer, so no node of any later layer is dispatched (each keeps
status `idle`); and finalization turns the execution status to `error`
with a message naming the first failed node — a node that indeed failed. -/
theorem claim2_layer_failure_is_recorded_and_halts_scheduling
    (w : Workflow) (f : String → NodeOutcome) (wid : String) (total : Nat)
    (pre post : List (List String)) (failLayer : List String) (n : String)
    (hall : ∀ l ∈ pre ++ failLayer :: post, ∀ m ∈ l, m ∈ w.nodeIds)
    (hnd : (pre ++ failLayer :: post).flatten.Nodup)
    (hpre : ∀ l ∈ pre, ∀ m ∈ l, (nodeRunResult w f m).success = true)
    (hn : n ∈ failLayer)
    (hfail : (nodeRunResult w f n).success = false) :
    ∃ final,
      runLayers w f total (pre ++ failLayer :: post) (initState wid w) = final ∧
      n ∈ final.nodesFailed ∧
      statusOf final n = some NodeStatus.error ∧
      (∀ m ∈ failLayer, (nodeRunResult w f m).success = true →
        m ∈ final.nodesCompleted ∧ statusOf final m = some NodeStatus.completed) ∧
      (∀ m ∈ failLayer, (nodeRunResult w f m).success = false →
        m ∈ final.nodesFailed ∧ statusOf final m = some NodeStatus.error) ∧
      final.dispatched = pre.flatten ++ failLayer ∧
      (∀ l ∈ post, ∀ m ∈ l,
        m ∉ final.dispatched ∧ statusOf final m = some NodeStatus.idle) ∧
      final.nodesFailed ≠ [] ∧
      (∀ m ∈ final.nodesFailed, (nodeRunResult w f m).success = false) ∧
      (finalizeExecution final).2.status = ExecutionStatus.error ∧
      (finalizeExecution final).1.success = false ∧
      (finalizeExecution final).1.error =
        some ("Execution failed at node: " ++ final.nodesFailed.headI) ∧
      final.nodesFailed.headI ∈ final.nodesFailed := by
  have hndflat : (pre.flatten ++ (failLayer ++ post.flatten)).Nodup := by
    rw [← List.flatten_cons, ← List.flatten_append]
    exact hnd
  have hdisjPre : pre.flatten.Disjoint (failLayer ++ post.flatten) :=
    List.disjoint_of_nodup_append hndflat
  have hndMid : (failLayer ++ post.flatten).Nodup := hndflat.of_append_right
  have hfailNodup : failLayer.Nodup := hndMid.of_append_left
  have hdisjFail : failLayer.Disjoint post.flatten :=
    List.disjoint_of_nodup_append hndMid
  have hkeysF : ∀ m ∈ failLayer, m ∈ w.nodeIds :=
    hall failLayer (List.mem_append.mpr (Or.inr (List.mem_cons_self _ _)))
  obtain ⟨st2, hrun, hf2, hd2, hs2⟩ := runLayers_ok_prefix w f total pre
    (failLayer :: post) (initState wid w) hpre
    (fun l hl => hall l (List.mem_append.mpr (Or.inl hl)))
    rfl
  obtain ⟨hdispL, _, hstatL, hfailL, hcomplL, hstatusL⟩ :=
    runLayer_fields w f failLayer st2 hkeysF
  have hnFail : n ∈ (runLayer w f failLayer st2).nodesFailed :=
    (hfailL n).mpr (Or.inr ⟨hn, hfail⟩)
  have hne2 : (runLayer w f failLayer st2).nodesFailed ≠ [] :=
    List.ne_nil_of_mem hnFail
  have hstep : runLayers w f total (failLayer :: post) st2 =
      updateProgress total (runLayer w f failLayer st2) := by
    show (if st2.nodesFailed ≠ [] then st2 else _) = _
    rw [if_neg (by simp [hf2])]
    exact runLayers_break w f total post _ hne2
  set stF := updateProgress total (runLayer w f failLayer st2) with hstF
  have hFfail : stF.nodesFailed = (runLayer w f failLayer st2).nodesFailed := rfl
  have hFcompl : stF.nodesCompleted = (runLayer w f failLayer st2).nodesCompleted := rfl
  have hFmap : stF.nodeStatusMap = (runLayer w f failLayer st2).nodeStatusMap := rfl
  have hFdisp : stF.dispatched = (runLayer w f failLayer st2).dispatched := rfl
  -- status lookup of an id of the failing layer
  have hstatus : ∀ m ∈ failLayer,
      (stF.nodeStatusMap.find? fun p => p.1 = m) =
        some (m, if (nodeRunResult w f m).success then NodeStatus.completed
                 else NodeStatus.error) := by
    intro m hm
    rw [hFmap, hstatusL hfailNodup m hm,
        hs2 m (fun hc => hdisjPre hc (List.mem_append.mpr (Or.inl hm)))]
    show (((initState wid w).nodeStatusMap.find? fun p => p.1 = m).map _) = _
    rw [show (initState wid w).nodeStatusMap = w.nodes.map fun nd => (nd.id, NodeStatus.idle) from rfl,
        find?_idle_map w.nodes m (hkeysF m hm)]
    rfl
  refine ⟨stF, hrun.trans hstep, ?_, ?_, ?_, ?_, ?_, ?_, ?_, ?_, ?_, ?_, ?_, ?_⟩
  · rw [hFfail]; exact hnFail
  · rw [statusOf, hstatus n hn, hfail]
    rfl
  · intro m hm hsucc
    refine ⟨?_, ?_⟩
    · rw [hFcompl]
      exact (hcomplL m).mpr (Or.inr ⟨hm, hsucc⟩)
    · rw [statusOf, hstatus m hm, hsucc]
      rfl
  · intro m hm hsucc
    refine ⟨?_, ?_⟩
    · rw [hFfail]
      exact (hfailL m).mpr (Or.inr ⟨hm, hsucc⟩)
    · rw [statusOf, hstatus m hm, hsucc]
      rfl
  · rw [hFdisp, hdispL, hd2]
    show [] ++ pre.flatten ++ failLayer = _
    rw [List.nil_append]
  · intro l hl m hm
    have hmpost : m ∈ post.flatten := List.mem_flatten.mpr ⟨l, hl, hm⟩
    have hmf : m ∉ failLayer := fun hc => hdisjFail hc hmpost
    have hmpre : m ∉ pre.flatten := fun hc =>
      hdisjPre hc (List.mem_append.mpr (Or.inr hmpost))
    constructor
    · rw [hFdisp, hdispL, hd2]
      intro hc
      rcases List.mem_append.mp hc with hc1 | hc1
      · rcases List.mem_append.mp hc1 with hc2 | hc2
        · exact absurd hc2 (List.not_mem_nil m)
        · exact hmpre hc2
      · exact hmf hc1
    · rw [statusOf, hFmap, hstatL m hmf,
        hs2 m hmpre,
        show (initState wid w).nodeStatusMap = w.nodes.map fun nd => (nd.id, NodeStatus.idle) from rfl,
        find?_idle_map w.nodes m (hall l (List.mem_append.mpr (Or.inr (List.mem_cons_of_mem _ hl))) m hm)]
      rfl
  · rw [hFfail]; exact hne2
  · intro m hm
    rw [hFfail] at hm
    rcases (hfailL m).mp hm with hm1 | hm1
    · rw [hf2] at hm1; cases hm1
    · exact hm1.2
  · rw [finalizeExecution, if_pos (by rw [hFfail]; exact hne2)]
  · rw [finalizeExecution, if_pos (by rw [hFfail]; exact hne2)]
  · rw [finalizeExecution, if_pos (by rw [hFfail]; exact hne2)]
  · exact headI_mem_self (by rw [hFfail]; exact hne2)

/-- **C2 witness.**  The theorem applied to the concrete three-node
workflow with layers `[[a], [b], [c]]`, where `b` returns an explicit
failure: `b` lands in the failed set with status `error`, only `a` and `b`
were dispatched, and finalization reports the error naming `b`. -/
theorem claim2_witness :
    ∃ final,
      runLayers freeThreeWorkflow failBOracle 3 [["a"], ["b"], ["c"]]
        (initState "wf" freeThreeWorkflow) = final ∧
      "b" ∈ final.nodesFailed ∧
      statusOf final "b" = some NodeStatus.error ∧
      final.dispatched = ["a", "b"] ∧
      (finalizeExecution final).2.status = ExecutionStatus.error := by
  obtain ⟨final, h1, h2, h3, _, _, h6, _, _, _, h10, _, _, _⟩ :=
    claim2_layer_failure_is_recorded_and_halts_scheduling freeThreeWorkflow failBOracle
      "wf" 3 [["a"]] [["c"]] ["b"] "b"
      (by decide) (by decide) (by decide) (by decide) (by decide)
  exact ⟨final, h1, h2, h3, h6, h10⟩

/-! ## Towards C5: small graph lemmas -/

theorem nodeId_mem_allIds (w : Workflow) (n : WorkflowNode) (h : n ∈ w.nodes) :
    n.id ∈ allIds w := by
  unfold allIds
  exact List.mem_append.mpr (Or.inl (List.mem_append.mpr (Or.inl
    (List.mem_map.mpr ⟨n, h, rfl⟩))))

theorem target_mem_allIds (w : Workflow) (e : WorkflowEdge) (h : e ∈ w.edges) :
    e.target ∈ allIds w := by
  unfold allIds
  exact List.mem_append.mpr (Or.inr (List.mem_map.mpr ⟨e, h, rfl⟩))

theorem cardRem_cons_lt (w : Workflow) (u : String) (visited : List String)
    (hu : u ∈ allIds w) (hnv : u ∉ visited) :
    cardRem w (u :: visited) < cardRem w visited := by
  unfold cardRem
  rw [List.toFinset_cons, Finset.sdiff_insert]
  exact Finset.card_erase_lt_of_mem
    (Finset.mem_sdiff.mpr ⟨by simpa [idsF] using hu, by simpa using hnv⟩)

theorem cardRem_mono (w : Workflow) (v1 v2 : List String)
    (h : ∀ x ∈ v1, x ∈ v2) : cardRem w v2 ≤ cardRem w v1 := by
  unfold cardRem
  refine Finset.card_le_card (Finset.sdiff_subset_sdiff (le_refl _) ?_)
  intro x hx
  exact List.mem_toFinset.mpr (h x (List.mem_toFinset.mp hx))

theorem cardRem_le_dfsFuel (w : Workflow) (visited : List String) :
    cardRem w visited ≤ (allIds w).length := by
  calc cardRem w visited ≤ (idsF w).card :=
    Finset.card_le_card (Finset.sdiff_subset : idsF w \ visited.toFinset ⊆ idsF w)
  _ ≤ (allIds w).length := by
    have h2 := List.toFinset_card_le (l := allIds w)
    simpa [idsF] using h2

/-- If every direct successor of `u` has no reachable cycle, neither has
`u`. -/
theorem safeFrom_of_successors (w : Workflow) (u : String)
    (h : ∀ t, edgeRel w u t → safeFrom w t) : safeFrom w u := by
  rintro ⟨c, hreach, hcyc⟩
  rcases Relation.ReflTransGen.cases_head hreach with heq | ⟨t, hstep, hreach2⟩
  · have hcu : Relation.TransGen (edgeRel w) u u := by rw [heq]; exact hcyc
    rcases Relation.TransGen.head'_iff.mp hcu with ⟨t, hstep, hrest⟩
    exact h t hstep ⟨u, hrest, hcu⟩
  · exact h t hstep ⟨c, hreach2, hcyc⟩

theorem dfsScan_nil (w : Workflow) (fuel : Nat) (u : String) (visited stack : List String) :
    dfsScan w fuel [] u visited stack = (false, visited) := rfl

theorem dfsScan_cons (w : Workflow) (fuel : Nat) (e : WorkflowEdge)
    (rest : List WorkflowEdge) (u : String) (visited stack : List String) :
    dfsScan w fuel (e :: rest) u visited stack =
      if e.source = u then
        if e.target ∈ stack then (true, visited)
        else if e.target ∈ visited then dfsScan w fuel rest u visited stack
        else
          match dfsVisit w fuel e.target visited stack with
          | (true, v2) => (true, v2)
          | (false, v2) => dfsScan w fuel rest u v2 stack
      else dfsScan w fuel rest u visited stack := rfl

theorem dfsVisit_succ (w : Workflow) (fuel : Nat) (u : String)
    (visited stack : List String) :
    dfsVisit w (fuel + 1) u visited stack =
      dfsScan w fuel w.edges u (u :: visited) (u :: stack) := rfl

/-- The edge-scan loop inherits the induction package from the recursive
visits it performs. -/
theorem dfsScanGood_of_visitGood (w : Workflow) (fuel : Nat)
    (hV : dfsVisitGood w fuel) : dfsScanGood w fuel := by
  intro es
  induction es with
  | nil =>
    intro u visited stack hes hu hvis hfuel
    simp only [dfsScan_nil]
    refine ⟨fun x hx => hx, hvis, ?_, ?_⟩
    · intro root _ _ htrue
      cases htrue
    · intro hB hpre _
      refine ⟨hB, ?_⟩
      intro e he hsrc
      rcases hpre e he hsrc with hmem | hsafe
      · cases hmem
      · exact hsafe
  | cons e rest ih =>
    intro u visited stack hes hu hvis hfuel
    have hes' : ∀ e2 ∈ rest, e2 ∈ w.edges := fun e2 h2 => hes e2 (List.mem_cons_of_mem _ h2)
    have heedge : e ∈ w.edges := hes e (List.mem_cons_self _ _)
    by_cases hsrc : e.source = u
    · by_cases hstk : e.target ∈ stack
      · have heq : dfsScan w fuel (e :: rest) u visited stack = (true, visited) := by
          rw [dfsScan_cons, if_pos hsrc, if_pos hstk]
        simp only [heq]
        refine ⟨fun x hx => hx, hvis, ?_, ?_⟩
        · intro root _ hstack _
          have hedge : edgeRel w u e.target := ⟨e, heedge, hsrc, rfl⟩
          obtain ⟨hrx, hxu⟩ := hstack e.target hstk
          exact ⟨e.target, hrx, Relation.TransGen.tail' hxu hedge⟩
        · intro _ _ hfalse
          cases hfalse
      · by_cases hvst : e.target ∈ visited
        · have heq : dfsScan w fuel (e :: rest) u visited stack =
              dfsScan w fuel rest u visited stack := by
            rw [dfsScan_cons, if_pos hsrc, if_neg hstk, if_pos hvst]
          simp only [heq]
          obtain ⟨m1, m2, m3, m4⟩ := ih u visited stack hes' hu hvis hfuel
          refine ⟨m1, m2, m3, ?_⟩
          intro hB hpre hfalse
          refine m4 hB ?_ hfalse
          intro e2 he2 hsrc2
          rcases hpre e2 he2 hsrc2 with hmem | hsafe
          · rcases List.mem_cons.mp hmem with rfl | hmem2
            · exact Or.inr (hB e2.target hvst hstk)
            · exact Or.inl hmem2
          · exact Or.inr hsafe
        · have htmem : e.target ∈ allIds w := target_mem_allIds w e heedge
          obtain ⟨v1, v2b, v3m, v4s, v5c⟩ :=
            hV e.target visited stack htmem hvst hvis hfuel
          rcases hvt : dfsVisit w fuel e.target visited stack with ⟨bt, v2⟩
          rw [hvt] at v1 v2b v3m v4s v5c
          have hedge : edgeRel w u e.target := ⟨e, heedge, hsrc, rfl⟩
          cases bt
          · have heq : dfsScan w fuel (e :: rest) u visited stack =
                dfsScan w fuel rest u v2 stack := by
              rw [dfsScan_cons, if_pos hsrc, if_neg hstk, if_neg hvst, hvt]
            simp only [heq]
            obtain ⟨m1, m2, m3, m4⟩ := ih u v2 stack hes' (v1 u hu) v2b
              (le_trans (cardRem_mono w visited v2 v1) hfuel)
            refine ⟨fun x hx => m1 x (v1 x hx), m2, m3, ?_⟩
            intro hB hpre hfalse
            have hB2 : ∀ x ∈ v2, x ∉ stack → safeFrom w x := v5c hB rfl
            refine m4 hB2 ?_ hfalse
            intro e2 he2 hsrc2
            rcases hpre e2 he2 hsrc2 with hmem | hsafe
            · rcases List.mem_cons.mp hmem with rfl | hmem2
              · exact Or.inr (hB2 e2.target v3m hstk)
              · exact Or.inl hmem2
            · exact Or.inr hsafe
          · have heq : dfsScan w fuel (e :: rest) u visited stack = (true, v2) := by
              rw [dfsScan_cons, if_pos hsrc, if_neg hstk, if_neg hvst, hvt]
            simp only [heq]
            refine ⟨v1, v2b, ?_, ?_⟩
            · intro root hroot hstack _
              refine v4s root (Relation.ReflTransGen.tail hroot hedge) ?_ rfl
              intro x hx
              obtain ⟨hrx, hxu⟩ := hstack x hx
              exact ⟨hrx, Relation.ReflTransGen.tail hxu hedge⟩
            · intro _ _ hfalse
              cases hfalse
    · have heq : dfsScan w fuel (e :: rest) u visited stack =
          dfsScan w fuel rest u visited stack := by
        rw [dfsScan_cons, if_neg hsrc]
      simp only [heq]
      obtain ⟨m1, m2, m3, m4⟩ := ih u visited stack hes' hu hvis hfuel
      refine ⟨m1, m2, m3, ?_⟩
      intro hB hpre hfalse
      refine m4 hB ?_ hfalse
      intro e2 he2 hsrc2
      rcases hpre e2 he2 hsrc2 with hmem | hsafe
      · rcases List.mem_cons.mp hmem with rfl | hmem2
        · exact absurd hsrc2 hsrc
        · exact Or.inl hmem2
      · exact Or.inr hsafe

theorem dfsVisitGood_zero (w : Workflow) : dfsVisitGood w 0 := by
  intro u visited stack hu hnv hvis hfuel
  exfalso
  have hpos : 0 < cardRem w visited := by
    refine Finset.card_pos.mpr ⟨u, ?_⟩
    exact Finset.mem_sdiff.mpr ⟨by simpa [idsF] using hu, by simpa using hnv⟩
  omega

theorem dfsVisitGood_succ (w : Workflow) (fuel : Nat)
    (hS : dfsScanGood w fuel) : dfsVisitGood w (fuel + 1) := by
  intro u visited stack hu hnv hvis hfuel
  have hfuel2 : cardRem w (u :: visited) ≤ fuel := by
    have := cardRem_cons_lt w u visited hu hnv
    omega
  have hvis2 : ∀ x ∈ u :: visited, x ∈ allIds w := by
    intro x hx
    rcases List.mem_cons.mp hx with rfl | hx2
    · exact hu
    · exact hvis x hx2
  obtain ⟨m1, m2, m3, m4⟩ := hS w.edges u (u :: visited) (u :: stack)
    (fun _ h => h) (List.mem_cons_self _ _) hvis2 hfuel2
  simp only [dfsVisit_succ]
  refine ⟨?_, m2, ?_, ?_, ?_⟩
  · intro x hx
    exact m1 x (List.mem_cons_of_mem _ hx)
  · exact m1 u (List.mem_cons_self _ _)
  · intro root hroot hstack htrue
    refine m3 root hroot ?_ htrue
    intro x hx
    rcases List.mem_cons.mp hx with rfl | hx2
    · exact ⟨hroot, Relation.ReflTransGen.refl⟩
    · exact hstack x hx2
  · intro hB hfalse
    have hB2 : ∀ x ∈ u :: visited, x ∉ u :: stack → safeFrom w x := by
      intro x hx hxs
      rcases List.mem_cons.mp hx with rfl | hx2
      · exact absurd (List.mem_cons_self _ _) hxs
      · exact hB x hx2 fun hc => hxs (List.mem_cons_of_mem _ hc)
    obtain ⟨hblack, hsucc⟩ := m4 hB2 (fun e he _ => Or.inl he) hfalse
    have hsafeu : safeFrom w u := by
      refine safeFrom_of_successors w u ?_
      rintro t ⟨e, he, hsrc, htgt⟩
      exact htgt ▸ hsucc e he hsrc
    intro x hx hxs
    by_cases hxu : x = u
    · exact hxu ▸ hsafeu
    · exact hblack x hx (by
        intro hc
        rcases List.mem_cons.mp hc with h1 | h1
        · exact hxu h1
        · exact hxs h1)

theorem dfsVisitGood_all (w : Workflow) : ∀ fuel, dfsVisitGood w fuel
  | 0 => dfsVisitGood_zero w
  | fuel + 1 => dfsVisitGood_succ w fuel (dfsScanGood_of_visitGood w fuel (dfsVisitGood_all w fuel))

/-- Soundness of the outer loop of `_has_cycles`: a `true` answer exhibits
a cycle reachable from some workflow node. -/
theorem hasCyclesGo_sound (w : Workflow) (nodes : List WorkflowNode)
    (visited : List String) (hns : ∀ n ∈ nodes, n ∈ w.nodes)
    (hvis : ∀ x ∈ visited, x ∈ allIds w)
    (htrue : hasCyclesGo w nodes visited = true) :
    ∃ v ∈ w.nodeIds, ∃ c, reach w v c ∧ cycleAt w c := by
  induction nodes generalizing visited with
  | nil => cases htrue
  | cons n rest ih =>
    by_cases hmem : n.id ∈ visited
    · refine ih visited (fun x hx => hns x (List.mem_cons_of_mem _ hx)) hvis ?_
      rw [hasCyclesGo, if_pos hmem] at htrue
      exact htrue
    · have hnid : n.id ∈ allIds w := nodeId_mem_allIds w n (hns n (List.mem_cons_self _ _))
      obtain ⟨v1, v2b, v3m, v4s, _⟩ := dfsVisitGood_all w (dfsFuel w) n.id visited [] hnid hmem hvis
        (le_trans (cardRem_le_dfsFuel w visited) (by unfold dfsFuel; omega))
      rw [hasCyclesGo, if_neg hmem] at htrue
      rcases hvt : dfsVisit w (dfsFuel w) n.id visited [] with ⟨b, v2⟩
      rw [hvt] at htrue v1 v2b v3m v4s
      cases b
      · refine ih v2 (fun x hx => hns x (List.mem_cons_of_mem _ hx)) v2b htrue
      · obtain ⟨c, hrc, hcyc⟩ := v4s n.id Relation.ReflTransGen.refl (by intro x hx; cases hx) rfl
        exact ⟨n.id, List.mem_map.mpr ⟨n, hns n (List.mem_cons_self _ _), rfl⟩, c, hrc, hcyc⟩

/-- Completeness of the outer loop: a `false` answer certifies that no
listed node reaches a cycle. -/
theorem hasCyclesGo_complete (w : Workflow) (nodes : List WorkflowNode)
    (visited : List String) (hvis : ∀ x ∈ visited, x ∈ allIds w)
    (hsafe : ∀ x ∈ visited, safeFrom w x) (hns : ∀ n ∈ nodes, n ∈ w.nodes)
    (hfalse : hasCyclesGo w nodes visited = false) :
    ∀ n ∈ nodes, safeFrom w n.id := by
  induction nodes generalizing visited with
  | nil => intro n hn; cases hn
  | cons n rest ih =>
    by_cases hmem : n.id ∈ visited
    · rw [hasCyclesGo, if_pos hmem] at hfalse
      intro n2 hn2
      rcases List.mem_cons.mp hn2 with rfl | hn3
      · exact hsafe n2.id hmem
      · exact ih visited hvis hsafe (fun x hx => hns x (List.mem_cons_of_mem _ hx)) hfalse n2 hn3
    · have hnid : n.id ∈ allIds w := nodeId_mem_allIds w n (hns n (List.mem_cons_self _ _))
      obtain ⟨v1, v2b, v3m, _, v5c⟩ := dfsVisitGood_all w (dfsFuel w) n.id visited [] hnid hmem hvis
        (le_trans (cardRem_le_dfsFuel w visited) (by unfold dfsFuel; omega))
      rw [hasCyclesGo, if_neg hmem] at hfalse
      rcases hvt : dfsVisit w (dfsFuel w) n.id visited [] with ⟨b, v2⟩
      rw [hvt] at hfalse v1 v2b v3m v5c
      cases b
      · have hsafe2 : ∀ x ∈ v2, safeFrom w x := by
          intro x hx
          exact v5c (fun y hy _ => hsafe y hy) rfl x hx (by intro hc; cases hc)
        intro n2 hn2
        rcases List.mem_cons.mp hn2 with rfl | hn3
        · exact hsafe2 n2.id v3m
        · exact ih v2 v2b hsafe2 (fun x hx => hns x (List.mem_cons_of_mem _ hx)) hfalse n2 hn3
      · cases hfalse

/-- `_has_cycles` answers `true` exactly when some directed cycle of the
edge relation is reachable (along edges) from some node of the workflow. -/
theorem hasCycles_iff_reachable_cycle (w : Workflow) :
    hasCycles w = true ↔ ∃ v ∈ w.nodeIds, ∃ c, reach w v c ∧ cycleAt w c := by
  constructor
  · intro h
    exact hasCyclesGo_sound w w.nodes [] (fun _ hn => hn) (by intro x hx; cases hx) h
  · rintro ⟨v, hv, c, hrc, hcyc⟩
    by_contra hfalse
    have hf : hasCycles w = false := by
      cases hx : hasCycles w
      · rfl
      · exact absurd hx hfalse
    have hsafe := hasCyclesGo_complete w w.nodes [] (by intro x hx; cases hx)
      (by intro x hx; cases hx) (fun _ hn => hn) hf
    obtain ⟨n, hn, hnid⟩ := List.mem_map.mp hv
    exact hsafe n hn ⟨c, hnid.symm ▸ hrc, hcyc⟩

/-! ## C5: the cycle check -/

/-- **C5 counterexample.**  The claim says every workflow whose edge set
contains a directed cycle is rejected with the cycle reason.  The concrete
workflow whose single node is `a` and whose only edge is the self-loop
x → x on an id that is no node has a directed cycle in its edge set, yet
validation returns `valid`: the depth-first search only starts from node
ids, and nothing connects `a` to `x`. -/
theorem claim5_counterexample :
    (∃ u, cycleAt phantomCycleWorkflow u) ∧
    validateWorkflow phantomCycleWorkflow = { valid := true, error := none } := by
  constructor
  · exact ⟨"x", Relation.TransGen.single ⟨edgeXX, by decide, rfl, rfl⟩⟩
  · rfl

/-- **C5 (amended).**  `_validate_workflow` reports "Workflow contains
cycles" exactly when some directed cycle of the edge relation is reachable
through edges from some node of the workflow.  In particular a
self-referential edge on a workflow node is always detected, and an
acyclic workflow always passes the cycle check; but a cycle lying entirely
among ids that are not reachable from any node escapes the check. -/
theorem claim5_cycle_reason_iff_reachable_cycle (w : Workflow) :
    validateWorkflow w = { valid := false, error := some "Workflow contains cycles" } ↔
      ∃ v ∈ w.nodeIds, ∃ c, reach w v c ∧ cycleAt w c := by
  rw [validateWorkflow_eq]
  constructor
  · intro heq
    by_cases h : hasCycles w
    · exact (hasCycles_iff_reachable_cycle w).mp h
    · rw [if_neg h] at heq
      cases heq
  · intro hex
    rw [if_pos ((hasCycles_iff_reachable_cycle w).mpr hex)]
